import Mathlib

/-!
Shallow embedding of the versioning service of this repository
(`VersionsService`: branches, versions, structural diff, restore,
common-ancestor search, three-way merge and its commit sequence).

Conventions of the embedding:
* JavaScript `Map<string, T>` is an association list (`AMap`) built with
  `mapSet`, which overwrites the value of an existing key in place and
  appends a fresh key at the end — exactly `Map.prototype.set`.
  `mapGet` is `Map.prototype.get` (first, hence unique, matching key).
* JavaScript `Set<string>` built from a concatenation of key lists is
  `dedupFirst` (keeps the first occurrence of each element, in order).
* `undefined`-able fields (`stereotype?`, `pk?`, `fromCard?`, …) are
  `Option`; `x ?? d` is `Option.getD`, `a ?? b` on options is `Option.or`;
  `!!x` on an optional boolean is `Option.getD false`.
* Database rows live in a `Store`; `prisma.….findFirst({where:{id, projectId}})`
  is a `List.find?`; a thrown `NotFoundException` / `BadRequestException`
  is `Except.error`.
* The `constraints?: any[]` field is opaque to every operation modelled
  here (it is only passed through), so its elements are modelled as
  opaque string tokens.
-/

namespace Verano

/-- Attribute of an entity (source type `Attr`). -/
structure Attr where
  name : String
  type : String
  pk : Option Bool
  unique : Option Bool
  nullable : Option Bool
  deriving DecidableEq

/-- Entity of the DSL document (source type `Entity`). -/
structure Entity where
  name : String
  stereotype : Option String
  attrs : List Attr
  deriving DecidableEq

/-- Relation kind (source union `'association'|'aggregation'|'composition'`). -/
inductive RelKind where
  | association
  | aggregation
  | composition
  deriving DecidableEq

/-- Relation of the DSL document (source type `Relation`). -/
structure Relation where
  «from» : String
  «to» : String
  kind : RelKind
  fromCard : Option String
  toCard : Option String
  deriving DecidableEq

/-- A DSL document (source type `DSL`). -/
structure DSL where
  entities : List Entity
  relations : List Relation
  constraints : Option (List String)
  deriving DecidableEq

/-! ### Association-list model of JavaScript `Map` and `Set` -/

/-- JavaScript `Map<string, α>` as an insertion-ordered association list. -/
abbrev AMap (α : Type) := List (String × α)

/-- `Map.prototype.get`: the value of the first (unique) entry with the key. -/
def mapGet (m : AMap α) (k : String) : Option α :=
  (m.find? (fun p => p.1 = k)).map Prod.snd

/-- `Map.prototype.set`: overwrite an existing key in place, else append. -/
def mapSet : AMap α → String → α → AMap α
  | [], k, v => [(k, v)]
  | (k', v') :: t, k, v => if k' = k then (k, v) :: t else (k', v') :: mapSet t k v

/-- The keys of a map, in insertion order. -/
def keys (m : AMap α) : List String := m.map Prod.fst

/-- Build a map from a list, keyed by `f` (source `indexByName`, `indexEntities`,
`indexRelations`, `new Map(arr.map(x => [f x, x]))`): later elements with the
same key overwrite earlier ones, key positions are first occurrences. -/
def indexBy (f : α → String) (l : List α) : AMap α :=
  l.foldl (fun m x => mapSet m (f x) x) []

/-- Deduplication keeping first occurrences, with an accumulator of already
seen elements (models iteration order of a JavaScript `Set`). -/
def dedupAux : List String → List String → List String
  | [], _ => []
  | x :: xs, seen => if x ∈ seen then dedupAux xs seen else x :: dedupAux xs (x :: seen)

/-- `new Set(list)` iterated in insertion order: first occurrences, in order. -/
def dedupFirst (l : List String) : List String := dedupAux l []

/-- `Set.prototype.add` on a set kept as a duplicate-free list. -/
def insertSet (l : List String) (x : String) : List String :=
  if x ∈ l then l else l ++ [x]

/-! ### DiffEngine (source `diffEntities`, `diffRelations`, lines 58–108) -/

/-- Source `sameAttr` (line 64): name, type and coerced booleans all agree. -/
def sameAttr (a b : Attr) : Bool :=
  decide (a.name = b.name ∧ a.type = b.type ∧ a.pk.getD false = b.pk.getD false ∧
    a.unique.getD false = b.unique.getD false ∧ a.nullable.getD false = b.nullable.getD false)

/-- The `stereotype: { from, to }` component of a changed-entity report. -/
structure StereoChange where
  «from» : Option String
  «to» : Option String
  deriving DecidableEq

/-- One `attrChanged` element: `{ name, from, to }`. -/
structure AttrChange where
  name : String
  «from» : Attr
  «to» : Attr
  deriving DecidableEq

/-- One element of `diffEntities(...).changed`. -/
structure EntityChange where
  name : String
  stereotype : StereoChange
  attrAdded : List Attr
  attrRemoved : List Attr
  attrChanged : List AttrChange
  deriving DecidableEq

/-- Result of `diffEntities`. -/
structure EntityDiffRes where
  added : List Entity
  removed : List Entity
  changed : List EntityChange
  deriving DecidableEq

/-- One element of `diffRelations(...).changed`: `{ key, from, to }`. -/
structure RelationChange where
  key : String
  «from» : Relation
  «to» : Relation
  deriving DecidableEq

/-- Result of `diffRelations`. -/
structure RelationDiffRes where
  added : List Relation
  removed : List Relation
  changed : List RelationChange
  deriving DecidableEq

/-- Attribute-level diff of two attribute lists (source lines 74–83, the inner
loops of `diffEntities`): returns `(attrAdded, attrRemoved, attrChanged)`. -/
def diffAttrs (la lb : List Attr) : List Attr × List Attr × List AttrChange :=
  let A := indexBy Attr.name la
  let B := indexBy Attr.name lb
  let attrRemoved := A.filterMap (fun p =>
    match mapGet B p.1 with
    | none => some p.2
    | some _ => none)
  let attrChanged := A.filterMap (fun p =>
    match mapGet B p.1 with
    | none => none
    | some atB => if sameAttr p.2 atB then none else some ⟨p.1, p.2, atB⟩)
  let attrAdded := B.filterMap (fun p =>
    match mapGet A p.1 with
    | none => some p.2
    | some _ => none)
  (attrAdded, attrRemoved, attrChanged)

/-- The `changed` entry produced for an entity name present on both sides
(source lines 84–86), `none` when the entity did not change. -/
def entityChangeEntry (name : String) (eA eB : Entity) : Option EntityChange :=
  let d := diffAttrs eA.attrs eB.attrs
  if eA.stereotype ≠ eB.stereotype ∨ d.1 ≠ [] ∨ d.2.1 ≠ [] ∨ d.2.2 ≠ [] then
    some ⟨name, ⟨eA.stereotype, eB.stereotype⟩, d.1, d.2.1, d.2.2⟩
  else none

/-- Source `diffEntities` (lines 67–91). The source fills the three arrays in
two loops over the maps `A` and `B`; each array is the corresponding
`filterMap` over the map it is filled from, in the same order. -/
def diffEntities (a b : List Entity) : EntityDiffRes :=
  let A := indexBy Entity.name a
  let B := indexBy Entity.name b
  let removed := A.filterMap (fun p =>
    match mapGet B p.1 with
    | none => some p.2
    | some _ => none)
  let changed := A.filterMap (fun p =>
    match mapGet B p.1 with
    | none => none
    | some eB => entityChangeEntry p.1 p.2 eB)
  let added := B.filterMap (fun p =>
    match mapGet A p.1 with
    | none => some p.2
    | some _ => none)
  ⟨added, removed, changed⟩

/-- Source `keyRel` (line 92): relation identity is the ordered endpoint pair. -/
def keyRel (r : Relation) : String := r.«from» ++ "::" ++ r.«to»

/-- The `changed` entry for a relation key present on both sides
(source lines 100–103), `none` when the relation did not change. -/
def relationChangeEntry (k : String) (rA rB : Relation) : Option RelationChange :=
  if rA.kind ≠ rB.kind ∨ rA.fromCard.getD "" ≠ rB.fromCard.getD "" ∨
      rA.toCard.getD "" ≠ rB.toCard.getD "" then
    some ⟨k, rA, rB⟩
  else none

/-- Source `diffRelations` (lines 93–108). -/
def diffRelations (a b : List Relation) : RelationDiffRes :=
  let A := indexBy keyRel a
  let B := indexBy keyRel b
  let removed := A.filterMap (fun p =>
    match mapGet B p.1 with
    | none => some p.2
    | some _ => none)
  let changed := A.filterMap (fun p =>
    match mapGet B p.1 with
    | none => none
    | some rB => relationChangeEntry p.1 p.2 rB)
  let added := B.filterMap (fun p =>
    match mapGet A p.1 with
    | none => some p.2
    | some _ => none)
  ⟨added, removed, changed⟩

/-! ### MergeEngine (source `threeWayMerge`, lines 196–267) -/

/-- A recorded merge conflict (the three shapes pushed by `threeWayMerge`). -/
inductive Conflict where
  | entityStereotype (name : String) (ours theirs : Option String)
  | attr (entity attr : String) (ours theirs : Attr)
  | relation (key : String) (ours theirs : Relation)
  deriving DecidableEq

/-- Source `pick` (line 213): missing stereotype compares as the empty string. -/
def pick (x : Option String) : String := x.getD ""

/-- Source `same` (line 230): attribute value equality used by the merge —
type and coerced booleans, the name is not compared. -/
def sameAttrM (x y : Attr) : Bool :=
  decide (x.type = y.type ∧ x.pk.getD false = y.pk.getD false ∧
    x.unique.getD false = y.unique.getD false ∧ x.nullable.getD false = y.nullable.getD false)

/-- Source `eq` (line 256): relation value equality used by the merge. -/
def relEq (x y : Relation) : Bool :=
  decide (x.kind = y.kind ∧ x.fromCard.getD "" = y.fromCard.getD "" ∧
    x.toCard.getD "" = y.toCard.getD "")

/-- The attribute conflict test of source line 231:
`!same(ao, at) && (!bo || (!same(ao, bo) && !same(at, bo)))`. -/
def attrConflictCond (bo : Option Attr) (a a' : Attr) : Bool :=
  !(sameAttrM a a') &&
    (match bo with
     | none => true
     | some b0 => !(sameAttrM a b0) && !(sameAttrM a' b0))

/-- Per-attribute-name step of the attribute merge (source lines 220–239).
The first five source cases collapse to: only one side present keeps that
side (whatever the base holds); both sides present runs the conflict test. -/
def mergeAttrCase (entityName an : String) (bo ao atv : Option Attr) :
    Option Attr × List Conflict :=
  match ao, atv with
  | some a, some a' =>
    if attrConflictCond bo a a' then
      (some a, [Conflict.attr entityName an a a'])
    else
      (some a, [])
  | some a, none => (some a, [])
  | none, some a' => (some a', [])
  | none, none => (none, [])

/-- Generic loop collecting per-key results and conflicts, in key order
(the shape shared by the entity, attribute and relation loops of
`threeWayMerge`: each iteration possibly `set`s one result — the keys are
pairwise distinct, so `Map.set` appends — and pushes its conflicts). -/
def collectGo (step : String → Option β × List Conflict) : List String → List β × List Conflict
  | [] => ([], [])
  | n :: rest =>
    let r := step n
    let rs := collectGo step rest
    ((match r.1 with
      | some e => e :: rs.1
      | none => rs.1), r.2 ++ rs.2)

/-- Per-attribute-name step with the three lookups (source lines 221–223:
`find` on the base / ours / theirs attribute arrays). -/
def attrStep (entityName : String) (battrs oattrs tattrs : List Attr) (an : String) :
    Option Attr × List Conflict :=
  mergeAttrCase entityName an
    (battrs.find? (fun a => a.name = an))
    (oattrs.find? (fun a => a.name = an))
    (tattrs.find? (fun a => a.name = an))

/-- Source `b?.attrs ?? []` (line 221): the base entity's attributes, the
empty list when the base has no such entity. -/
def battrsOf : Option Entity → List Attr
  | none => []
  | some e => e.attrs

/-- Merge of an entity present in both ours and theirs (source lines 212–240):
stereotype conflict test, attribute merge over the union of attribute names
(ours first, then theirs, then base), and the resolved entity whose
stereotype is `o.stereotype ?? t.stereotype ?? b?.stereotype`. -/
def mergeEntityBoth (name : String) (b : Option Entity) (o t : Entity) :
    Option Entity × List Conflict :=
  let bst := b.bind Entity.stereotype
  let stConfs :=
    if pick o.stereotype ≠ pick t.stereotype ∧ pick o.stereotype ≠ pick bst ∧
        pick t.stereotype ≠ pick bst then
      [Conflict.entityStereotype name o.stereotype t.stereotype]
    else []
  let battrs := battrsOf b
  let names := dedupFirst (o.attrs.map Attr.name ++ t.attrs.map Attr.name ++ battrs.map Attr.name)
  let merged := collectGo (attrStep name battrs o.attrs t.attrs) names
  (some ⟨name, o.stereotype.or (t.stereotype.or bst), merged.1⟩, stConfs ++ merged.2)

/-- Per-entity-name step of the entity merge (source lines 203–241).
The five addition/deletion cases collapse to: only one side present keeps
that side verbatim (whatever the base holds — a deletion on one side is
undone by the surviving copy), absent on both sides stays absent, present
on both sides merges. -/
def mergeEntityCase (name : String) (b o t : Option Entity) :
    Option Entity × List Conflict :=
  match o, t with
  | some o', some t' => mergeEntityBoth name b o' t'
  | some o', none => (some o', [])
  | none, some t' => (some t', [])
  | none, none => (none, [])

/-- The relation conflict test of source line 257:
`!eq(o, t) && (!b || (!eq(o, b) && !eq(t, b)))`. -/
def relConflictCond (b : Option Relation) (o t : Relation) : Bool :=
  !(relEq o t) &&
    (match b with
     | none => true
     | some b' => !(relEq o b') && !(relEq t b'))

/-- Per-relation-key step of the relation merge (source lines 247–263),
with the same collapse of the one-side-present cases. -/
def mergeRelationCase (k : String) (b o t : Option Relation) :
    Option Relation × List Conflict :=
  match o, t with
  | some o', some t' =>
    if relConflictCond b o' t' then
      (some o', [Conflict.relation k o' t'])
    else
      (some o', [])
  | some o', none => (some o', [])
  | none, some t' => (some t', [])
  | none, none => (none, [])

/-- Entity step reading the three entity maps. -/
def entStep (bE oE tE : AMap Entity) (n : String) : Option Entity × List Conflict :=
  mergeEntityCase n (mapGet bE n) (mapGet oE n) (mapGet tE n)

/-- Relation step reading the three relation maps. -/
def relStep (bR oR tR : AMap Relation) (k : String) : Option Relation × List Conflict :=
  mergeRelationCase k (mapGet bR k) (mapGet oR k) (mapGet tR k)

/-- Source `threeWayMerge` (lines 196–267): returns the merged document and
the conflict list (entity-loop conflicts first, then relation-loop ones).
The result's constraints are `base.constraints ?? []` (line 265). -/
def threeWayMerge (base ours theirs : DSL) : DSL × List Conflict :=
  let bE := indexBy Entity.name base.entities
  let oE := indexBy Entity.name ours.entities
  let tE := indexBy Entity.name theirs.entities
  let allNames := dedupFirst (keys bE ++ keys oE ++ keys tE)
  let ents := collectGo (entStep bE oE tE) allNames
  let bR := indexBy keyRel base.relations
  let oR := indexBy keyRel ours.relations
  let tR := indexBy keyRel theirs.relations
  let allKeys := dedupFirst (keys bR ++ keys oR ++ keys tR)
  let rels := collectGo (relStep bR oR tR) allKeys
  (⟨ents.1, rels.1, some (base.constraints.getD [])⟩, ents.2 ++ rels.2)

/-! ### Persistent store and service-level operations -/

/-- A `Branch` row. -/
structure Branch where
  id : String
  projectId : String
  name : String
  isDefault : Bool
  createdById : String
  deriving DecidableEq

/-- A `ModelVersion` row (`createdAt` as an abstract timestamp). -/
structure ModelVersion where
  id : String
  projectId : String
  branchId : String
  parentVersionId : Option String
  authorId : String
  message : String
  content : DSL
  createdAt : Nat
  deriving DecidableEq

/-- Merge status (source line 297). -/
inductive MergeStatus where
  | COMPLETED
  | CONFLICTS
  deriving DecidableEq

/-- A `Merge` row (source lines 292–301 and 313–316). -/
structure MergeRec where
  id : String
  projectId : String
  sourceBranchId : String
  targetBranchId : String
  sourceVersionId : String
  targetVersionId : String
  status : MergeStatus
  conflicts : Option (List Conflict)
  resultVersionId : Option String
  createdById : String
  deriving DecidableEq

/-- An `AuditLog` row (the JSON `metadata` column, which no claim inspects,
is omitted). -/
structure AuditLog where
  projectId : String
  actorId : String
  action : String
  targetType : String
  targetId : String
  deriving DecidableEq

/-- The database tables touched by `VersionsService`. -/
structure Store where
  branches : List Branch
  versions : List ModelVersion
  merges : List MergeRec
  audits : List AuditLog
  deriving DecidableEq

/-- Thrown exceptions (`BadRequestException`, `NotFoundException`). -/
inductive Err where
  | badRequest
  | notFound
  deriving DecidableEq

/-- JavaScript `String.prototype.trim` (whitespace stripped from both ends),
written over the character list so that it evaluates inside the kernel. -/
def strTrim (s : String) : String :=
  ⟨((s.data.dropWhile Char.isWhitespace).reverse.dropWhile Char.isWhitespace).reverse⟩

/-- JavaScript `id.slice(0, n)` on an ASCII identifier, written over the
character list so that it evaluates inside the kernel. -/
def strTake (s : String) (n : Nat) : String := ⟨s.data.take n⟩

/-- Source `getVersion` (lines 110–114): `findFirst({where:{id, projectId}})`,
NotFound when the id does not resolve inside the project. -/
def getVersion (s : Store) (pid vid : String) : Except Err ModelVersion :=
  match s.versions.find? (fun v => decide (v.id = vid ∧ v.projectId = pid)) with
  | some v => Except.ok v
  | none => Except.error Err.notFound

/-- The `summary` block of a diff report (six counts). -/
structure DiffSummary where
  entAdded : Nat
  entRemoved : Nat
  entChanged : Nat
  relAdded : Nat
  relRemoved : Nat
  relChanged : Nat
  deriving DecidableEq

/-- The value returned by the `diff` endpoint. -/
structure DiffReport where
  summary : DiffSummary
  entities : EntityDiffRes
  relations : RelationDiffRes
  deriving DecidableEq

/-- Source `diff` (lines 116–138): rejects identical version ids, resolves
both versions, and returns the structural diff of their contents. The
`modelDiff.upsert` persistence (lines 131–135) does not affect the returned
report and is not modelled. -/
def diffService (s : Store) (pid fromVersionId toVersionId : String) :
    Except Err DiffReport :=
  if fromVersionId = toVersionId then Except.error Err.badRequest
  else
    match getVersion s pid fromVersionId, getVersion s pid toVersionId with
    | Except.ok A, Except.ok B =>
      let e := diffEntities A.content.entities B.content.entities
      let r := diffRelations A.content.relations B.content.relations
      Except.ok ⟨⟨e.added.length, e.removed.length, e.changed.length,
        r.added.length, r.removed.length, r.changed.length⟩, e, r⟩
    | Except.error e, _ => Except.error e
    | _, Except.error e => Except.error e

/-- Source lines 144–146: `findFirst({where:{projectId, branchId},
orderBy:{createdAt:'desc'}})` — the branch row with the greatest
`createdAt` (first row wins on ties, modelling a stable sort). -/
def latestOnBranch (s : Store) (pid bid : String) : Option ModelVersion :=
  (s.versions.filter (fun w => decide (w.projectId = pid ∧ w.branchId = bid))).foldl
    (fun acc w =>
      match acc with
      | none => some w
      | some m => if m.createdAt < w.createdAt then some w else acc) none

/-- Source `restore` (lines 141–159): a fresh snapshot on the restored
version's own branch, content copied verbatim, parent = the branch's
latest version. The database-generated id and timestamp of the new row
are passed in as `newId` and `now`. -/
def restore (s : Store) (pid uid vid : String) (message : Option String)
    (newId : String) (now : Nat) : Except Err (Store × ModelVersion) :=
  match getVersion s pid vid with
  | Except.error e => Except.error e
  | Except.ok v =>
    let latest := latestOnBranch s pid v.branchId
    let created : ModelVersion :=
      ⟨newId, pid, v.branchId, latest.map ModelVersion.id, uid,
        message.getD ("restore: " ++ strTake v.id 7), v.content, now⟩
    let audit : AuditLog := ⟨pid, uid, "MODEL_SNAPSHOT", "ModelVersion", created.id⟩
    Except.ok ({ s with versions := s.versions ++ [created], audits := s.audits ++ [audit] }, created)

/-- Source `createBranch` (lines 26–47). Every `prisma.….create` is an
append that persists even when a later statement throws; on the NotFound
path (line 34) the branch row is already committed and neither the seed
version nor the audit entry is ever written. The returned pair is the
store state after the call together with the outcome. -/
def createBranch (s : Store) (pid uid : String) (name : String)
    (fromVersionId : Option String) (newBranchId newVersionId : String) (now : Nat) :
    Store × Except Err Branch :=
  if strTrim name = "" then (s, Except.error Err.badRequest)
  else
    let created : Branch := ⟨newBranchId, pid, strTrim name, false, uid⟩
    let s1 := { s with branches := s.branches ++ [created] }
    match fromVersionId with
    | none =>
      let audit : AuditLog := ⟨pid, uid, "BRANCH_CREATE", "Branch", created.id⟩
      ({ s1 with audits := s1.audits ++ [audit] }, Except.ok created)
    | some f =>
      match getVersion s1 pid f with
      | Except.error _ => (s1, Except.error Err.notFound)
      | Except.ok base =>
        let seed : ModelVersion :=
          ⟨newVersionId, pid, created.id, some base.id, uid,
            "branch: " ++ name ++ " from " ++ strTake base.id 7, base.content, now⟩
        let s2 := { s1 with versions := s1.versions ++ [seed] }
        let audit : AuditLog := ⟨pid, uid, "BRANCH_CREATE", "Branch", created.id⟩
        ({ s2 with audits := s2.audits ++ [audit] }, Except.ok created)

/-! ### AncestryResolver (source `traceParents`, `findCommonAncestor`,
lines 162–183) -/

/-- The body of the `while (cur && limit-- > 0)` loop of `traceParents`:
add the current id to the visited set, stop at a root, else fetch the
parent (which throws NotFound when the parent id does not resolve). -/
def traceParentsGo (s : Store) (pid : String) : Nat → ModelVersion → List String →
    Except Err (List String)
  | 0, _, visited => Except.ok visited
  | Nat.succ l, cur, visited =>
    let visited' := insertSet visited cur.id
    match cur.parentVersionId with
    | none => Except.ok visited'
    | some p =>
      match getVersion s pid p with
      | Except.error e => Except.error e
      | Except.ok nxt => traceParentsGo s pid l nxt visited'

/-- Source `traceParents` (lines 162–171) with its depth cap `limit = 200`. -/
def traceParents (s : Store) (pid startId : String) : Except Err (List String) :=
  match getVersion s pid startId with
  | Except.error e => Except.error e
  | Except.ok c => traceParentsGo s pid 200 c []

/-- The second walk of `findCommonAncestor` (lines 177–181): test membership
in the visited set of the first walk, stop at a root or when the cap runs
out, returning `none` rather than an error in both cases. -/
def findAncGo (s : Store) (pid : String) (aAnc : List String) :
    Nat → ModelVersion → Except Err (Option ModelVersion)
  | 0, _ => Except.ok none
  | Nat.succ l, cur =>
    if cur.id ∈ aAnc then Except.ok (some cur)
    else
      match cur.parentVersionId with
      | none => Except.ok none
      | some p =>
        match getVersion s pid p with
        | Except.error e => Except.error e
        | Except.ok nxt => findAncGo s pid aAnc l nxt

/-- Source `findCommonAncestor` (lines 173–183), cap `limit = 200`. -/
def findCommonAncestor (s : Store) (pid aId bId : String) :
    Except Err (Option ModelVersion) :=
  match traceParents s pid aId with
  | Except.error e => Except.error e
  | Except.ok aAnc =>
    match getVersion s pid bId with
    | Except.error e => Except.error e
    | Except.ok c => findAncGo s pid aAnc 200 c

/-! ### The merge commit sequence (source `merge`, lines 269–324) -/

/-- One database write of the merge commit sequence. -/
inductive WriteOp where
  | mergeCreate (m : MergeRec)
  | versionCreate (v : ModelVersion)
  | mergeSetResult (mergeId resultVersionId : String)
  | auditCreate (a : AuditLog)
  deriving DecidableEq

/-- Apply one write to the store. -/
def applyOp (s : Store) : WriteOp → Store
  | WriteOp.mergeCreate m => { s with merges := s.merges ++ [m] }
  | WriteOp.versionCreate v => { s with versions := s.versions ++ [v] }
  | WriteOp.mergeSetResult mid rid =>
    { s with merges := s.merges.map (fun m =>
        if m.id = mid then { m with resultVersionId := some rid } else m) }
  | WriteOp.auditCreate a => { s with audits := s.audits ++ [a] }

/-- Apply a sequence of writes in order. -/
def applyOps (s : Store) (ops : List WriteOp) : Store := ops.foldl applyOp s

/-- The four separate writes issued by `merge` after computing the result
(source lines 292–321, in source order): create the merge record (with no
result version yet), create the result snapshot, point the merge record at
it, create the audit entry. The source wraps them in no transaction. -/
def mergeCommitOps (pid uid sbid tbid svid tvid mergeId newVersionId : String)
    (conflicts : List Conflict) (result : DSL) (now : Nat) : List WriteOp :=
  [WriteOp.mergeCreate
      ⟨mergeId, pid, sbid, tbid, svid, tvid,
        (if conflicts.isEmpty then MergeStatus.COMPLETED else MergeStatus.CONFLICTS),
        (if conflicts.isEmpty then none else some conflicts), none, uid⟩,
    WriteOp.versionCreate
      ⟨newVersionId, pid, tbid, some tvid, uid,
        (if conflicts.isEmpty then "merge" else "merge (with conflicts)"), result, now⟩,
    WriteOp.mergeSetResult mergeId newVersionId,
    WriteOp.auditCreate ⟨pid, uid, "MERGE", "Merge", mergeId⟩]

/-- Source `merge` (lines 269–324): resolve the two versions, check the
branch pairing, take the common ancestor's content as base (empty document
when there is none, line 284), run the three-way merge with ours = the
target version's content and theirs = the source version's content, and
apply the four commit writes. -/
def mergeService (s : Store) (pid uid sbid tbid svid tvid mergeId newVersionId : String)
    (now : Nat) : Except Err Store :=
  match getVersion s pid svid, getVersion s pid tvid with
  | Except.ok src, Except.ok dst =>
    if src.branchId ≠ sbid ∨ dst.branchId ≠ tbid then Except.error Err.badRequest
    else
      match findCommonAncestor s pid svid tvid with
      | Except.error e => Except.error e
      | Except.ok anc =>
        let base : DSL :=
          match anc with
          | some a => a.content
          | none => ⟨[], [], some []⟩
        let m := threeWayMerge base dst.content src.content
        Except.ok (applyOps s (mergeCommitOps pid uid sbid tbid svid tvid mergeId newVersionId m.2 m.1 now))
  | Except.error e, _ => Except.error e
  | _, Except.error e => Except.error e

/-! ### Helper definitions used by statements and proofs -/

/-- The last element of `l` whose key is `k` (what a left-to-right sequence of
`Map.set`s leaves in the map at key `k`). -/
def lastBy (f : α → String) (l : List α) (k : String) : Option α :=
  l.foldl (fun acc x => if f x = k then some x else acc) none

/-- Swap the `from`/`to` directions of an attribute-change report entry. -/
def mirrorAttrChange (c : AttrChange) : AttrChange := ⟨c.name, c.«to», c.«from»⟩

/-- Checks that every parent pointer of every version row resolves to a row
of the same project (no dangling parent references). -/
def wellFormedParents (s : Store) : Bool :=
  s.versions.all (fun v =>
    match v.parentVersionId with
    | none => true
    | some p => s.versions.any (fun w => decide (w.id = p ∧ w.projectId = v.projectId)))

/-! ### Lemmas about the map and set model -/

theorem mapGet_nil (k : String) : mapGet ([] : AMap α) k = none := rfl

theorem mapGet_cons (p : String × α) (m : AMap α) (k : String) :
    mapGet (p :: m) k = if p.1 = k then some p.2 else mapGet m k := by
  by_cases h : p.1 = k
  · simp [mapGet, List.find?_cons_of_pos, h]
  · simp [mapGet, List.find?_cons_of_neg, h]

theorem mapSet_cons (p : String × α) (m : AMap α) (k : String) (v : α) :
    mapSet (p :: m) k v = if p.1 = k then (k, v) :: m else p :: mapSet m k v := by
  cases p
  rfl

theorem mapGet_mapSet_self (m : AMap α) (k : String) (v : α) :
    mapGet (mapSet m k v) k = some v := by
  induction m with
  | nil => simp [mapSet, mapGet_cons]
  | cons p m ih =>
    by_cases h : p.1 = k
    · rw [mapSet_cons, if_pos h, mapGet_cons]
      simp
    · rw [mapSet_cons, if_neg h, mapGet_cons, if_neg h]
      exact ih

theorem mapGet_mapSet_other (m : AMap α) (k k' : String) (v : α) (h : k ≠ k') :
    mapGet (mapSet m k v) k' = mapGet m k' := by
  induction m with
  | nil => simp [mapSet, mapGet_cons, h]
  | cons p m ih =>
    by_cases hp : p.1 = k
    · rw [mapSet_cons, if_pos hp, mapGet_cons, mapGet_cons]
      simp only [hp]
      rw [if_neg h, if_neg h]
    · rw [mapSet_cons, if_neg hp, mapGet_cons, mapGet_cons]
      by_cases hk : p.1 = k'
      · rw [if_pos hk, if_pos hk]
      · rw [if_neg hk, if_neg hk]
        exact ih

theorem mapGet_foldl (f : α → String) (l : List α) (m : AMap α) (k : String) :
    mapGet (l.foldl (fun acc x => mapSet acc (f x) x) m) k
      = l.foldl (fun acc x => if f x = k then some x else acc) (mapGet m k) := by
  induction l generalizing m with
  | nil => simp
  | cons x xs ih =>
    simp only [List.foldl_cons]
    rw [ih]
    by_cases h : f x = k
    · rw [if_pos h, h, mapGet_mapSet_self]
    · rw [if_neg h, mapGet_mapSet_other _ _ _ _ h]

theorem mapGet_indexBy (f : α → String) (l : List α) (k : String) :
    mapGet (indexBy f l) k = lastBy f l k := by
  simpa [indexBy, lastBy] using mapGet_foldl f l [] k

theorem lastBy_aux_some (f : α → String) (k : String) :
    ∀ (l : List α) (acc : Option α) (v : α),
      l.foldl (fun acc x => if f x = k then some x else acc) acc = some v →
      (v ∈ l ∧ f v = k) ∨ acc = some v := by
  intro l
  induction l with
  | nil => intro acc v h; exact Or.inr h
  | cons x xs ih =>
    intro acc v h
    rw [List.foldl_cons] at h
    rcases ih _ v h with h' | h'
    · exact Or.inl ⟨List.mem_cons_of_mem _ h'.1, h'.2⟩
    · by_cases hx : f x = k
      · rw [if_pos hx] at h'
        have hv : x = v := Option.some.inj h'
        exact Or.inl ⟨hv ▸ List.mem_cons_self x xs, hv ▸ hx⟩
      · rw [if_neg hx] at h'
        exact Or.inr h'

theorem lastBy_spec (f : α → String) (l : List α) (k : String) (v : α)
    (h : lastBy f l k = some v) : v ∈ l ∧ f v = k := by
  rcases lastBy_aux_some f k l none v h with h' | h'
  · exact h'
  · exact absurd h' (by simp)

theorem lastBy_aux_none_iff (f : α → String) (k : String) :
    ∀ (l : List α) (acc : Option α),
      l.foldl (fun acc x => if f x = k then some x else acc) acc = none ↔
        (acc = none ∧ ∀ x ∈ l, f x ≠ k) := by
  intro l
  induction l with
  | nil => intro acc; simp
  | cons x xs ih =>
    intro acc
    by_cases hx : f x = k
    · simp only [List.foldl_cons, hx, if_pos, ih]
      constructor
      · rintro ⟨h1, -⟩; exact absurd h1 (by simp)
      · rintro ⟨-, h2⟩; exact absurd hx (h2 x (List.mem_cons_self x xs))
    · simp only [List.foldl_cons, hx, if_neg, not_false_iff, ih]
      constructor
      · rintro ⟨h1, h2⟩
        exact ⟨h1, fun y hy => by
          rcases List.mem_cons.mp hy with rfl | hy'
          · exact hx
          · exact h2 y hy'⟩
      · rintro ⟨h1, h2⟩
        exact ⟨h1, fun y hy => h2 y (List.mem_cons_of_mem _ hy)⟩

theorem lastBy_eq_none_iff (f : α → String) (l : List α) (k : String) :
    lastBy f l k = none ↔ ∀ x ∈ l, f x ≠ k := by
  unfold lastBy
  rw [lastBy_aux_none_iff]
  simp

theorem mapGet_indexBy_spec (f : α → String) (l : List α) (k : String) (v : α)
    (h : mapGet (indexBy f l) k = some v) : v ∈ l ∧ f v = k :=
  lastBy_spec f l k v (by rwa [← mapGet_indexBy])

theorem mapGet_indexBy_eq_none_iff (f : α → String) (l : List α) (k : String) :
    mapGet (indexBy f l) k = none ↔ ∀ x ∈ l, f x ≠ k := by
  rw [mapGet_indexBy]; exact lastBy_eq_none_iff f l k

theorem mapGet_indexBy_isSome_iff (f : α → String) (l : List α) (k : String) :
    (mapGet (indexBy f l) k).isSome ↔ ∃ x ∈ l, f x = k := by
  rw [Option.isSome_iff_ne_none, ne_eq, mapGet_indexBy_eq_none_iff]
  push_neg
  simp

theorem mapGet_eq_none_iff_keys (m : AMap α) (k : String) :
    mapGet m k = none ↔ k ∉ keys m := by
  simp only [mapGet, Option.map_eq_none', List.find?_eq_none, keys, List.mem_map]
  constructor
  · rintro h ⟨p, hp, rfl⟩
    exact h p hp (by simp)
  · intro h p hp hk
    exact h ⟨p, hp, by simpa using hk⟩

theorem mem_keys_iff_mapGet (m : AMap α) (k : String) :
    k ∈ keys m ↔ mapGet m k ≠ none := by
  rw [ne_eq, mapGet_eq_none_iff_keys]; simp

theorem keys_mapSet_of_mem (m : AMap α) (k : String) (v : α) (h : k ∈ keys m) :
    keys (mapSet m k v) = keys m := by
  induction m with
  | nil => simp [keys] at h
  | cons p m ih =>
    by_cases hp : p.1 = k
    · simp [mapSet, hp, keys]
    · rcases List.mem_cons.mp h with h' | h'
      · exact absurd h'.symm hp
      · simp only [mapSet, hp, if_neg, not_false_iff, keys, List.map_cons]
        rw [show List.map Prod.fst (mapSet m k v) = keys (mapSet m k v) from rfl, ih h']
        rfl

theorem keys_mapSet_of_not_mem (m : AMap α) (k : String) (v : α) (h : k ∉ keys m) :
    keys (mapSet m k v) = keys m ++ [k] := by
  induction m with
  | nil => simp [mapSet, keys]
  | cons p m ih =>
    have hp : p.1 ≠ k := fun hc => h (by simp [keys, hc])
    have h' : k ∉ keys m := fun hc => h (by simp [keys] at hc ⊢; exact Or.inr hc)
    simp only [mapSet, hp, if_neg, not_false_iff, keys, List.map_cons]
    rw [show List.map Prod.fst (mapSet m k v) = keys (mapSet m k v) from rfl, ih h']
    rfl

theorem nodup_keys_mapSet (m : AMap α) (k : String) (v : α) (h : (keys m).Nodup) :
    (keys (mapSet m k v)).Nodup := by
  by_cases hk : k ∈ keys m
  · rwa [keys_mapSet_of_mem m k v hk]
  · rw [keys_mapSet_of_not_mem m k v hk]
    simpa using List.Nodup.append h (by simp) (by simpa using hk)

theorem nodup_keys_indexBy (f : α → String) (l : List α) :
    (keys (indexBy f l)).Nodup := by
  suffices H : ∀ (l : List α) (m : AMap α), (keys m).Nodup →
      (keys (l.foldl (fun acc x => mapSet acc (f x) x) m)).Nodup by
    exact H l [] (by simp [keys])
  intro l
  induction l with
  | nil => intro m hm; simpa using hm
  | cons x xs ih =>
    intro m hm
    exact ih _ (nodup_keys_mapSet m (f x) x hm)

theorem mem_of_mapGet_eq_some (m : AMap α) (k : String) (v : α)
    (h : mapGet m k = some v) : (k, v) ∈ m := by
  simp only [mapGet, Option.map_eq_some'] at h
  rcases h with ⟨p, hp, rfl⟩
  have h1 := List.mem_of_find?_eq_some hp
  have h2 := List.find?_some hp
  simp only [decide_eq_true_eq] at h2
  rwa [show (k, p.2) = p by rw [← h2]]

theorem mapGet_eq_some_of_mem (m : AMap α) (k : String) (v : α)
    (hnd : (keys m).Nodup) (h : (k, v) ∈ m) : mapGet m k = some v := by
  induction m with
  | nil => simp at h
  | cons p m ih =>
    have hnd' : p.1 ∉ keys m ∧ (keys m).Nodup := by
      rw [show keys (p :: m) = p.1 :: keys m from rfl] at hnd
      exact List.nodup_cons.mp hnd
    rcases List.mem_cons.mp h with h' | h'
    · rw [← h', mapGet_cons]; simp
    · have hk : k ∈ keys m := List.mem_map.mpr ⟨(k, v), h', rfl⟩
      have hp : p.1 ≠ k := fun hc => hnd'.1 (hc ▸ hk)
      rw [mapGet_cons, if_neg hp]
      exact ih hnd'.2 h'

theorem mem_dedupAux (x : String) :
    ∀ (l seen : List String), x ∈ dedupAux l seen ↔ x ∈ l ∧ x ∉ seen := by
  intro l
  induction l with
  | nil => intro seen; simp [dedupAux]
  | cons y ys ih =>
    intro seen
    by_cases hy : y ∈ seen
    · rw [dedupAux, if_pos hy, ih]
      constructor
      · rintro ⟨h1, h2⟩; exact ⟨List.mem_cons_of_mem _ h1, h2⟩
      · rintro ⟨h1, h2⟩
        rcases List.mem_cons.mp h1 with rfl | h1'
        · exact absurd hy h2
        · exact ⟨h1', h2⟩
    · rw [dedupAux, if_neg hy]
      constructor
      · intro h
        rcases List.mem_cons.mp h with rfl | h'
        · exact ⟨List.mem_cons_self _ _, hy⟩
        · rcases (ih _).mp h' with ⟨h1, h2⟩
          exact ⟨List.mem_cons_of_mem _ h1, fun hc => h2 (List.mem_cons_of_mem _ hc)⟩
      · rintro ⟨h1, h2⟩
        rcases List.mem_cons.mp h1 with rfl | h1'
        · exact List.mem_cons_self _ _
        · by_cases hxy : x = y
          · exact hxy ▸ List.mem_cons_self _ _
          · exact List.mem_cons_of_mem _ ((ih _).mpr ⟨h1', by
              intro hc
              rcases List.mem_cons.mp hc with hc' | hc'
              · exact hxy hc'
              · exact h2 hc'⟩)

theorem nodup_dedupAux : ∀ (l seen : List String), (dedupAux l seen).Nodup := by
  intro l
  induction l with
  | nil => intro seen; simp [dedupAux]
  | cons y ys ih =>
    intro seen
    by_cases hy : y ∈ seen
    · rw [dedupAux, if_pos hy]; exact ih seen
    · rw [dedupAux, if_neg hy]
      refine List.nodup_cons.mpr ⟨?_, ih _⟩
      intro hc
      exact ((mem_dedupAux y ys (y :: seen)).mp hc).2 (List.mem_cons_self _ _)

theorem mem_dedupFirst (x : String) (l : List String) : x ∈ dedupFirst l ↔ x ∈ l := by
  rw [dedupFirst, mem_dedupAux]; simp

theorem nodup_dedupFirst (l : List String) : (dedupFirst l).Nodup :=
  nodup_dedupAux l []

/-! ### Lemmas about the merge loops -/

theorem collectGo_fst_mem (step : String → Option β × List Conflict)
    (names : List String) (e : β) :
    e ∈ (collectGo step names).1 ↔ ∃ n ∈ names, (step n).1 = some e := by
  induction names with
  | nil => simp [collectGo]
  | cons n rest ih =>
    rw [collectGo]
    cases hs : (step n).1 with
    | some e' =>
      simp only [hs]
      constructor
      · intro h
        rcases List.mem_cons.mp h with rfl | h'
        · exact ⟨n, List.mem_cons_self _ _, hs⟩
        · rcases ih.mp h' with ⟨n', hn', he'⟩
          exact ⟨n', List.mem_cons_of_mem _ hn', he'⟩
      · rintro ⟨n', hn', he'⟩
        rcases List.mem_cons.mp hn' with rfl | hn''
        · rw [hs] at he'
          exact (Option.some.inj he') ▸ List.mem_cons_self _ _
        · exact List.mem_cons_of_mem _ (ih.mpr ⟨n', hn'', he'⟩)
    | none =>
      simp only [hs]
      rw [ih]
      constructor
      · rintro ⟨n', hn', he'⟩
        exact ⟨n', List.mem_cons_of_mem _ hn', he'⟩
      · rintro ⟨n', hn', he'⟩
        rcases List.mem_cons.mp hn' with rfl | hn''
        · rw [hs] at he'; exact absurd he' (by simp)
        · exact ⟨n', hn'', he'⟩

theorem collectGo_snd_mem (step : String → Option β × List Conflict)
    (names : List String) (c : Conflict) :
    c ∈ (collectGo step names).2 ↔ ∃ n ∈ names, c ∈ (step n).2 := by
  induction names with
  | nil => simp [collectGo]
  | cons n rest ih =>
    rw [collectGo]
    simp only [List.mem_append, ih]
    constructor
    · rintro (h | ⟨n', hn', hc'⟩)
      · exact ⟨n, List.mem_cons_self _ _, h⟩
      · exact ⟨n', List.mem_cons_of_mem _ hn', hc'⟩
    · rintro ⟨n', hn', hc'⟩
      rcases List.mem_cons.mp hn' with rfl | hn''
      · exact Or.inl hc'
      · exact Or.inr ⟨n', hn'', hc'⟩

theorem collectGo_snd_nil (step : String → Option β × List Conflict)
    (names : List String) (H : ∀ n ∈ names, (step n).2 = []) :
    (collectGo step names).2 = [] := by
  induction names with
  | nil => rfl
  | cons n rest ih =>
    rw [collectGo]
    simp only
    rw [H n (List.mem_cons_self _ _), ih (fun n' hn' => H n' (List.mem_cons_of_mem _ hn'))]
    rfl

theorem collectGo_find (step : String → Option β × List Conflict)
    (nameOf : β → String)
    (Hname : ∀ n e, (step n).1 = some e → nameOf e = n) :
    ∀ (names : List String), names.Nodup → ∀ n ∈ names,
      ((collectGo step names).1.find? (fun e => nameOf e = n)) = (step n).1 := by
  intro names
  induction names with
  | nil => intro _ n hn; simp at hn
  | cons n0 rest ih =>
    intro hnd n hn
    have hnd' := List.nodup_cons.mp hnd
    rw [collectGo]
    rcases List.mem_cons.mp hn with rfl | hn'
    · cases hs : (step n).1 with
      | some e =>
        simp only [hs]
        rw [List.find?_cons_of_pos _ (by simp [Hname n e hs])]
      | none =>
        simp only [hs]
        rw [List.find?_eq_none]
        intro e he
        rcases (collectGo_fst_mem step rest e).mp he with ⟨n', hn', he'⟩
        have : nameOf e = n' := Hname n' e he'
        simp only [this, decide_eq_true_eq]
        intro hc
        exact hnd'.1 (hc ▸ hn')
    · have hne : n0 ≠ n := fun hc => hnd'.1 (hc ▸ hn')
      cases hs : (step n0).1 with
      | some e =>
        simp only [hs]
        rw [List.find?_cons_of_neg _ (by simp [Hname n0 e hs, hne])]
        exact ih hnd'.2 n hn'
      | none =>
        simp only [hs]
        exact ih hnd'.2 n hn'

theorem collectGo_count (step : String → Option β × List Conflict) (c : Conflict) :
    ∀ (names : List String), names.Nodup → ∀ n ∈ names,
      (∀ n' ∈ names, n' ≠ n → c ∉ (step n').2) →
      ((collectGo step names).2).count c = ((step n).2).count c := by
  intro names
  induction names with
  | nil => intro _ n hn; simp at hn
  | cons n0 rest ih =>
    intro hnd n hn H
    have hnd' := List.nodup_cons.mp hnd
    rw [collectGo]
    simp only [List.count_append]
    rcases List.mem_cons.mp hn with rfl | hn'
    · have hrest : ((collectGo step rest).2).count c = 0 := by
        rw [List.count_eq_zero]
        intro hc
        rcases (collectGo_snd_mem step rest c).mp hc with ⟨n', hn'', hc'⟩
        exact H n' (List.mem_cons_of_mem _ hn'') (fun he => hnd'.1 (he ▸ hn'')) hc'
      rw [hrest]
      simp
    · have h0 : ((step n0).2).count c = 0 := by
        rw [List.count_eq_zero]
        exact H n0 (List.mem_cons_self _ _) (fun hc => hnd'.1 (hc ▸ hn'))
      rw [h0, ih hnd'.2 n hn'
        (fun n' hn'' hne => H n' (List.mem_cons_of_mem _ hn'') hne)]
      simp

theorem sameAttrM_refl (a : Attr) : sameAttrM a a = true := by simp [sameAttrM]

theorem relEq_refl (r : Relation) : relEq r r = true := by simp [relEq]

theorem attrConflictCond_left_base (a x : Attr) :
    attrConflictCond (some a) a x = false := by
  simp [attrConflictCond, sameAttrM_refl]

theorem relConflictCond_left_base (o t : Relation) :
    relConflictCond (some o) o t = false := by
  simp [relConflictCond, relEq_refl]

/-- Every conflict produced by `mergeAttrCase` is an attribute conflict of
that entity and attribute, with both present values, under the conflict
condition. -/
theorem mergeAttrCase_snd_mem (en an : String) (bo ao atv : Option Attr) (c : Conflict)
    (h : c ∈ (mergeAttrCase en an bo ao atv).2) :
    ∃ a a', ao = some a ∧ atv = some a' ∧ c = Conflict.attr en an a a' ∧
      attrConflictCond bo a a' = true := by
  cases ao with
  | none => cases atv with
    | none => simp [mergeAttrCase] at h
    | some a' => simp [mergeAttrCase] at h
  | some a => cases atv with
    | none => simp [mergeAttrCase] at h
    | some a' =>
      rw [mergeAttrCase] at h
      by_cases hc : attrConflictCond bo a a' = true
      · rw [if_pos hc] at h
        rcases List.mem_singleton.mp h with rfl
        exact ⟨a, a', rfl, rfl, rfl, hc⟩
      · rw [if_neg hc] at h
        simp at h

/-- Every conflict produced by `mergeRelationCase` is a relation conflict of
that key, with both present values, under the conflict condition. -/
theorem mergeRelationCase_snd_mem (k : String) (b o t : Option Relation) (c : Conflict)
    (h : c ∈ (mergeRelationCase k b o t).2) :
    ∃ o' t', o = some o' ∧ t = some t' ∧ c = Conflict.relation k o' t' ∧
      relConflictCond b o' t' = true := by
  cases o with
  | none => cases t with
    | none => simp [mergeRelationCase] at h
    | some t' => simp [mergeRelationCase] at h
  | some o' => cases t with
    | none => simp [mergeRelationCase] at h
    | some t' =>
      rw [mergeRelationCase] at h
      by_cases hc : relConflictCond b o' t' = true
      · rw [if_pos hc] at h
        rcases List.mem_singleton.mp h with rfl
        exact ⟨o', t', rfl, rfl, rfl, hc⟩
      · rw [if_neg hc] at h
        simp at h

/-- Every conflict produced by `mergeEntityBoth` for entity `n` is either
the stereotype conflict of `n` (under its condition) or an attribute
conflict arising from `mergeAttrCase` at some attribute name of the union. -/
theorem mergeEntityBoth_snd_mem (n : String) (b : Option Entity) (o t : Entity)
    (c : Conflict) (h : c ∈ (mergeEntityBoth n b o t).2) :
    (c = Conflict.entityStereotype n o.stereotype t.stereotype) ∨
    (∃ an, c ∈ (attrStep n (battrsOf b) o.attrs t.attrs an).2) := by
  rw [mergeEntityBoth.eq_def] at h
  simp only [List.mem_append] at h
  rcases h with h | h
  · left
    split at h
    · exact List.mem_singleton.mp h
    · simp at h
  · right
    rcases (collectGo_snd_mem _ _ c).mp h with ⟨an, _, hc⟩
    exact ⟨an, hc⟩

/-- Every conflict produced by `mergeEntityCase` comes from the
both-sides-present branch. -/
theorem mergeEntityCase_snd_mem (n : String) (b o t : Option Entity) (c : Conflict)
    (h : c ∈ (mergeEntityCase n b o t).2) :
    ∃ o' t', o = some o' ∧ t = some t' ∧ c ∈ (mergeEntityBoth n b o' t').2 := by
  cases o with
  | none => cases t with
    | none => simp [mergeEntityCase] at h
    | some t' => simp [mergeEntityCase] at h
  | some o' => cases t with
    | none => simp [mergeEntityCase] at h
    | some t' => exact ⟨o', t', rfl, rfl, h⟩

/-- The owner entity of any conflict produced by the entity step `n` is `n`
itself. -/
theorem mergeEntityCase_snd_owner (n : String) (b o t : Option Entity) (c : Conflict)
    (h : c ∈ (mergeEntityCase n b o t).2) :
    (∃ os ts, c = Conflict.entityStereotype n os ts) ∨
    (∃ an x y, c = Conflict.attr n an x y) := by
  rcases mergeEntityCase_snd_mem n b o t c h with ⟨o', t', -, -, h'⟩
  rcases mergeEntityBoth_snd_mem n b o' t' c h' with h'' | ⟨an, h''⟩
  · exact Or.inl ⟨o'.stereotype, t'.stereotype, h''⟩
  · rcases mergeAttrCase_snd_mem n an _ _ _ c h'' with ⟨a, a', -, -, rfl, -⟩
    exact Or.inr ⟨an, a, a', rfl⟩

/-- The produced entity of the entity step `n`, when any, is named `n`,
provided the three maps key entities by their names. -/
theorem entStep_fst_name (bl ol tl : List Entity) (n : String) (e : Entity)
    (h : (entStep (indexBy Entity.name bl) (indexBy Entity.name ol)
      (indexBy Entity.name tl) n).1 = some e) : e.name = n := by
  rw [entStep] at h
  cases ho : mapGet (indexBy Entity.name ol) n with
  | some o' =>
    cases ht : mapGet (indexBy Entity.name tl) n with
    | some t' =>
      rw [ho, ht, mergeEntityCase, mergeEntityBoth.eq_def] at h
      simp only at h
      rw [← Option.some.inj h]
    | none =>
      rw [ho, ht, mergeEntityCase] at h
      simp only at h
      rw [← Option.some.inj h]
      exact (mapGet_indexBy_spec Entity.name ol n o' ho).2
  | none =>
    cases ht : mapGet (indexBy Entity.name tl) n with
    | some t' =>
      rw [ho, ht, mergeEntityCase] at h
      simp only at h
      rw [← Option.some.inj h]
      exact (mapGet_indexBy_spec Entity.name tl n t' ht).2
    | none =>
      rw [ho, ht, mergeEntityCase] at h
      simp at h

/-- The produced relation of the relation step `k`, when any, has key `k`,
provided the three maps key relations by `keyRel`. -/
theorem relStep_fst_key (bl ol tl : List Relation) (k : String) (r : Relation)
    (h : (relStep (indexBy keyRel bl) (indexBy keyRel ol)
      (indexBy keyRel tl) k).1 = some r) : keyRel r = k := by
  rw [relStep] at h
  cases ho : mapGet (indexBy keyRel ol) k with
  | some o' =>
    cases ht : mapGet (indexBy keyRel tl) k with
    | some t' =>
      rw [ho, ht, mergeRelationCase] at h
      have ho' := (mapGet_indexBy_spec keyRel ol k o' ho).2
      split at h
      · rw [← Option.some.inj h]; exact ho'
      · rw [← Option.some.inj h]; exact ho'
    | none =>
      rw [ho, ht, mergeRelationCase] at h
      simp only at h
      rw [← Option.some.inj h]
      exact (mapGet_indexBy_spec keyRel ol k o' ho).2
  | none =>
    cases ht : mapGet (indexBy keyRel tl) k with
    | some t' =>
      rw [ho, ht, mergeRelationCase] at h
      simp only at h
      rw [← Option.some.inj h]
      exact (mapGet_indexBy_spec keyRel tl k t' ht).2
    | none =>
      rw [ho, ht, mergeRelationCase] at h
      simp at h

/-- The produced attribute of the attribute step, when any, is named `an`. -/
theorem attrStep_fst_name (en : String) (bl ol tl : List Attr) (an : String) (a : Attr)
    (h : (attrStep en bl ol tl an).1 = some a) : a.name = an := by
  rw [attrStep] at h
  cases ho : ol.find? (fun x => x.name = an) with
  | some ao =>
    have hao : ao.name = an := by
      have := List.find?_some ho
      simpa using this
    cases ht : tl.find? (fun x => x.name = an) with
    | some atv =>
      rw [ho, ht, mergeAttrCase] at h
      split at h
      · rw [← Option.some.inj h]; exact hao
      · rw [← Option.some.inj h]; exact hao
    | none =>
      rw [ho, ht, mergeAttrCase] at h
      rw [← Option.some.inj h]
      exact hao
  | none =>
    cases ht : tl.find? (fun x => x.name = an) with
    | some atv =>
      rw [ho, ht, mergeAttrCase] at h
      rw [← Option.some.inj h]
      have := List.find?_some ht
      simpa using this
    | none =>
      rw [ho, ht, mergeAttrCase] at h
      simp at h

theorem attrStep_self_snd (en : String) (ol tl : List Attr) (an : String) :
    (attrStep en ol ol tl an).2 = [] := by
  rw [attrStep]
  cases ha : ol.find? (fun a => a.name = an) with
  | none =>
    cases ht : tl.find? (fun a => a.name = an) with
    | none => rw [mergeAttrCase]
    | some atv => rw [mergeAttrCase]
  | some a =>
    cases ht : tl.find? (fun a => a.name = an) with
    | none => rw [mergeAttrCase]
    | some atv =>
      rw [mergeAttrCase]
      rw [if_neg (by rw [attrConflictCond_left_base]; exact Bool.false_ne_true)]

theorem mergeEntityBoth_self_snd (n : String) (o t : Entity) :
    (mergeEntityBoth n (some o) o t).2 = [] := by
  rw [mergeEntityBoth.eq_def]
  simp only [Option.bind_some]
  rw [if_neg (by
    rintro ⟨-, h2, -⟩
    exact h2 rfl)]
  rw [show battrsOf (some o) = o.attrs from rfl]
  rw [collectGo_snd_nil _ _ (fun an _ => attrStep_self_snd n o.attrs t.attrs an)]
  rfl

theorem entStep_self_snd (bl tl : List Entity) (n : String) :
    (entStep (indexBy Entity.name bl) (indexBy Entity.name bl) (indexBy Entity.name tl) n).2
      = [] := by
  rw [entStep]
  cases ho : mapGet (indexBy Entity.name bl) n with
  | none =>
    cases ht : mapGet (indexBy Entity.name tl) n with
    | none => rw [mergeEntityCase]
    | some t' => rw [mergeEntityCase]
  | some o' =>
    cases ht : mapGet (indexBy Entity.name tl) n with
    | none => rw [mergeEntityCase]
    | some t' =>
      rw [mergeEntityCase]
      exact mergeEntityBoth_self_snd n o' t'

theorem relStep_self_snd (bl tl : List Relation) (k : String) :
    (relStep (indexBy keyRel bl) (indexBy keyRel bl) (indexBy keyRel tl) k).2 = [] := by
  rw [relStep]
  cases ho : mapGet (indexBy keyRel bl) k with
  | none =>
    cases ht : mapGet (indexBy keyRel tl) k with
    | none => rw [mergeRelationCase]
    | some t' => rw [mergeRelationCase]
  | some o' =>
    cases ht : mapGet (indexBy keyRel tl) k with
    | none => rw [mergeRelationCase]
    | some t' =>
      rw [mergeRelationCase]
      rw [if_neg (by rw [relConflictCond_left_base]; exact Bool.false_ne_true)]

theorem mem_keys_of_mapGet (m : AMap α) (k : String) (v : α)
    (h : mapGet m k = some v) : k ∈ keys m := by
  rw [mem_keys_iff_mapGet, h]
  simp

/-- Looking an entity name up in the merged document gives exactly the
output of the per-name entity step. -/
theorem twm_entities_find (base ours theirs : DSL) (n : String)
    (hn : n ∈ keys (indexBy Entity.name base.entities) ++
      keys (indexBy Entity.name ours.entities) ++ keys (indexBy Entity.name theirs.entities)) :
    (threeWayMerge base ours theirs).1.entities.find? (fun e => e.name = n)
      = (entStep (indexBy Entity.name base.entities) (indexBy Entity.name ours.entities)
          (indexBy Entity.name theirs.entities) n).1 := by
  show (collectGo (entStep (indexBy Entity.name base.entities)
      (indexBy Entity.name ours.entities) (indexBy Entity.name theirs.entities))
      (dedupFirst (keys (indexBy Entity.name base.entities) ++
        keys (indexBy Entity.name ours.entities) ++
        keys (indexBy Entity.name theirs.entities)))).1.find? (fun e => e.name = n) = _
  exact collectGo_find _ Entity.name
    (fun n' e he => entStep_fst_name base.entities ours.entities theirs.entities n' e he)
    _ (nodup_dedupFirst _) n ((mem_dedupFirst n _).mpr hn)

/-- Looking a relation key up in the merged document gives exactly the
output of the per-key relation step. -/
theorem twm_relations_find (base ours theirs : DSL) (k : String)
    (hk : k ∈ keys (indexBy keyRel base.relations) ++
      keys (indexBy keyRel ours.relations) ++ keys (indexBy keyRel theirs.relations)) :
    (threeWayMerge base ours theirs).1.relations.find? (fun r => keyRel r = k)
      = (relStep (indexBy keyRel base.relations) (indexBy keyRel ours.relations)
          (indexBy keyRel theirs.relations) k).1 := by
  show (collectGo (relStep (indexBy keyRel base.relations)
      (indexBy keyRel ours.relations) (indexBy keyRel theirs.relations))
      (dedupFirst (keys (indexBy keyRel base.relations) ++
        keys (indexBy keyRel ours.relations) ++
        keys (indexBy keyRel theirs.relations)))).1.find? (fun r => keyRel r = k) = _
  exact collectGo_find _ keyRel
    (fun k' r hr => relStep_fst_key base.relations ours.relations theirs.relations k' r hr)
    _ (nodup_dedupFirst _) k ((mem_dedupFirst k _).mpr hk)

/-- Every conflict of the merged output arises from some entity step or
some relation step. -/
theorem twm_conflicts_mem (base ours theirs : DSL) (c : Conflict)
    (h : c ∈ (threeWayMerge base ours theirs).2) :
    (∃ n, c ∈ (entStep (indexBy Entity.name base.entities)
      (indexBy Entity.name ours.entities) (indexBy Entity.name theirs.entities) n).2) ∨
    (∃ k, c ∈ (relStep (indexBy keyRel base.relations)
      (indexBy keyRel ours.relations) (indexBy keyRel theirs.relations) k).2) := by
  have h' : c ∈ (collectGo (entStep (indexBy Entity.name base.entities)
      (indexBy Entity.name ours.entities) (indexBy Entity.name theirs.entities))
      (dedupFirst (keys (indexBy Entity.name base.entities) ++
        keys (indexBy Entity.name ours.entities) ++
        keys (indexBy Entity.name theirs.entities)))).2 ++
      (collectGo (relStep (indexBy keyRel base.relations)
        (indexBy keyRel ours.relations) (indexBy keyRel theirs.relations))
      (dedupFirst (keys (indexBy keyRel base.relations) ++
        keys (indexBy keyRel ours.relations) ++
        keys (indexBy keyRel theirs.relations)))).2 := h
  rcases List.mem_append.mp h' with h'' | h''
  · rcases (collectGo_snd_mem _ _ c).mp h'' with ⟨n, -, hc⟩
    exact Or.inl ⟨n, hc⟩
  · rcases (collectGo_snd_mem _ _ c).mp h'' with ⟨k, -, hc⟩
    exact Or.inr ⟨k, hc⟩

/-- With both sides present, the attribute merge always resolves to ours's
stored value, conflict or not (source lines 234 and 236). -/
theorem mergeAttrCase_fst_both (en an : String) (bo : Option Attr) (a a' : Attr) :
    (mergeAttrCase en an bo (some a) (some a')).1 = some a := by
  rw [mergeAttrCase]
  split
  · rfl
  · rfl

/-- With both sides present, the relation merge always resolves to ours's
stored value, conflict or not (source lines 259 and 261). -/
theorem mergeRelationCase_fst_both (k : String) (b : Option Relation) (o t : Relation) :
    (mergeRelationCase k b (some o) (some t)).1 = some o := by
  rw [mergeRelationCase]
  split
  · rfl
  · rfl

/-- Looking an attribute name up in the merged entity produced by
`mergeEntityBoth` gives exactly the output of the attribute step. -/
theorem mergeEntityBoth_attrs_find (n : String) (b : Option Entity) (o t : Entity)
    (an : String) (e : Entity) (he : (mergeEntityBoth n b o t).1 = some e)
    (han : an ∈ dedupFirst (o.attrs.map Attr.name ++ t.attrs.map Attr.name ++
      (battrsOf b).map Attr.name)) :
    e.attrs.find? (fun a => a.name = an)
      = (attrStep n (battrsOf b) o.attrs t.attrs an).1 := by
  rw [mergeEntityBoth.eq_def] at he
  simp only at he
  rw [← Option.some.inj he]
  exact collectGo_find _ Attr.name
    (fun an' a ha => attrStep_fst_name n _ o.attrs t.attrs an' a ha)
    _ (nodup_dedupFirst _) an han

/-- The multiplicity in the merge's conflict list of a conflict owned by
entity name `n` equals its multiplicity in the output of entity step `n`. -/
theorem twm_count_entity_owned (base ours theirs : DSL) (n : String) (c : Conflict)
    (hc : (∃ os ts, c = Conflict.entityStereotype n os ts) ∨
      ∃ an x y, c = Conflict.attr n an x y)
    (hn : n ∈ keys (indexBy Entity.name base.entities) ++
      keys (indexBy Entity.name ours.entities) ++ keys (indexBy Entity.name theirs.entities)) :
    ((threeWayMerge base ours theirs).2).count c
      = ((entStep (indexBy Entity.name base.entities) (indexBy Entity.name ours.entities)
          (indexBy Entity.name theirs.entities) n).2).count c := by
  have hsplit : (threeWayMerge base ours theirs).2
      = (collectGo (entStep (indexBy Entity.name base.entities)
          (indexBy Entity.name ours.entities) (indexBy Entity.name theirs.entities))
        (dedupFirst (keys (indexBy Entity.name base.entities) ++
          keys (indexBy Entity.name ours.entities) ++
          keys (indexBy Entity.name theirs.entities)))).2 ++
        (collectGo (relStep (indexBy keyRel base.relations)
          (indexBy keyRel ours.relations) (indexBy keyRel theirs.relations))
        (dedupFirst (keys (indexBy keyRel base.relations) ++
          keys (indexBy keyRel ours.relations) ++
          keys (indexBy keyRel theirs.relations)))).2 := rfl
  rw [hsplit, List.count_append]
  have hrel0 : ((collectGo (relStep (indexBy keyRel base.relations)
      (indexBy keyRel ours.relations) (indexBy keyRel theirs.relations))
      (dedupFirst (keys (indexBy keyRel base.relations) ++
        keys (indexBy keyRel ours.relations) ++
        keys (indexBy keyRel theirs.relations)))).2).count c = 0 := by
    rw [List.count_eq_zero]
    intro hmem
    rcases (collectGo_snd_mem _ _ c).mp hmem with ⟨k', -, hk'⟩
    rw [relStep] at hk'
    rcases mergeRelationCase_snd_mem k' _ _ _ c hk' with ⟨r1, r2, -, -, heq, -⟩
    rcases hc with ⟨os, ts, rfl⟩ | ⟨an, x, y, rfl⟩
    · simp at heq
    · simp at heq
  rw [hrel0, Nat.add_zero]
  refine collectGo_count _ c _ (nodup_dedupFirst _) n ((mem_dedupFirst n _).mpr hn) ?_
  intro n' _ hne hmem
  rw [entStep] at hmem
  rcases mergeEntityCase_snd_owner n' _ _ _ c hmem with ⟨os', ts', heq⟩ | ⟨an', x', y', heq⟩
  · rcases hc with ⟨os, ts, rfl⟩ | ⟨an, x, y, rfl⟩
    · rw [Conflict.entityStereotype.injEq] at heq
      exact hne heq.1.symm
    · simp at heq
  · rcases hc with ⟨os, ts, rfl⟩ | ⟨an, x, y, rfl⟩
    · simp at heq
    · rw [Conflict.attr.injEq] at heq
      exact hne heq.1.symm

/-- The multiplicity in the merge's conflict list of a relation conflict for
key `k` equals its multiplicity in the output of relation step `k`. -/
theorem twm_count_relation_owned (base ours theirs : DSL) (k : String) (c : Conflict)
    (hc : ∃ x y, c = Conflict.relation k x y)
    (hk : k ∈ keys (indexBy keyRel base.relations) ++
      keys (indexBy keyRel ours.relations) ++ keys (indexBy keyRel theirs.relations)) :
    ((threeWayMerge base ours theirs).2).count c
      = ((relStep (indexBy keyRel base.relations) (indexBy keyRel ours.relations)
          (indexBy keyRel theirs.relations) k).2).count c := by
  have hsplit : (threeWayMerge base ours theirs).2
      = (collectGo (entStep (indexBy Entity.name base.entities)
          (indexBy Entity.name ours.entities) (indexBy Entity.name theirs.entities))
        (dedupFirst (keys (indexBy Entity.name base.entities) ++
          keys (indexBy Entity.name ours.entities) ++
          keys (indexBy Entity.name theirs.entities)))).2 ++
        (collectGo (relStep (indexBy keyRel base.relations)
          (indexBy keyRel ours.relations) (indexBy keyRel theirs.relations))
        (dedupFirst (keys (indexBy keyRel base.relations) ++
          keys (indexBy keyRel ours.relations) ++
          keys (indexBy keyRel theirs.relations)))).2 := rfl
  rw [hsplit, List.count_append]
  have hent0 : ((collectGo (entStep (indexBy Entity.name base.entities)
      (indexBy Entity.name ours.entities) (indexBy Entity.name theirs.entities))
      (dedupFirst (keys (indexBy Entity.name base.entities) ++
        keys (indexBy Entity.name ours.entities) ++
        keys (indexBy Entity.name theirs.entities)))).2).count c = 0 := by
    rw [List.count_eq_zero]
    intro hmem
    rcases (collectGo_snd_mem _ _ c).mp hmem with ⟨n', -, hn'⟩
    rw [entStep] at hn'
    rcases mergeEntityCase_snd_owner n' _ _ _ c hn' with ⟨os', ts', heq⟩ | ⟨an', x', y', heq⟩
    · rcases hc with ⟨x, y, rfl⟩
      simp at heq
    · rcases hc with ⟨x, y, rfl⟩
      simp at heq
  rw [hent0, Nat.zero_add]
  refine collectGo_count _ c _ (nodup_dedupFirst _) k ((mem_dedupFirst k _).mpr hk) ?_
  intro k' _ hne hmem
  rw [relStep] at hmem
  rcases mergeRelationCase_snd_mem k' _ _ _ c hmem with ⟨r1, r2, -, -, heq, -⟩
  rcases hc with ⟨x, y, rfl⟩
  rw [Conflict.relation.injEq] at heq
  exact hne heq.1.symm

theorem sameAttr_refl (a : Attr) : sameAttr a a = true := by simp [sameAttr]

theorem mapGet_self_of_mem_indexBy (f : α → String) (l : List α) (p : String × α)
    (hp : p ∈ indexBy f l) : mapGet (indexBy f l) p.1 = some p.2 := by
  have := mapGet_eq_some_of_mem (indexBy f l) p.1 p.2 (nodup_keys_indexBy f l)
  exact this (by rwa [show (p.1, p.2) = p from rfl])

theorem diffAttrs_self (l : List Attr) : diffAttrs l l = ([], [], []) := by
  rw [diffAttrs.eq_def]
  simp only
  refine Prod.ext ?_ (Prod.ext ?_ ?_)
  · simp only
    rw [List.filterMap_eq_nil_iff]
    intro p hp
    rw [mapGet_self_of_mem_indexBy Attr.name l p hp]
  · simp only
    rw [List.filterMap_eq_nil_iff]
    intro p hp
    rw [mapGet_self_of_mem_indexBy Attr.name l p hp]
  · simp only
    rw [List.filterMap_eq_nil_iff]
    intro p hp
    rw [mapGet_self_of_mem_indexBy Attr.name l p hp]
    simp [sameAttr_refl]

theorem entityChangeEntry_self (n : String) (e : Entity) : entityChangeEntry n e e = none := by
  rw [entityChangeEntry.eq_def]
  simp [diffAttrs_self]

theorem diffEntities_self (l : List Entity) : diffEntities l l = ⟨[], [], []⟩ := by
  rw [diffEntities.eq_def]
  simp only [EntityDiffRes.mk.injEq]
  refine ⟨?_, ?_, ?_⟩
  · rw [List.filterMap_eq_nil_iff]
    intro p hp
    rw [mapGet_self_of_mem_indexBy Entity.name l p hp]
  · rw [List.filterMap_eq_nil_iff]
    intro p hp
    rw [mapGet_self_of_mem_indexBy Entity.name l p hp]
  · rw [List.filterMap_eq_nil_iff]
    intro p hp
    rw [mapGet_self_of_mem_indexBy Entity.name l p hp]
    exact entityChangeEntry_self p.1 p.2

theorem relationChangeEntry_self (k : String) (r : Relation) :
    relationChangeEntry k r r = none := by
  rw [relationChangeEntry.eq_def]
  simp

theorem diffRelations_self (l : List Relation) : diffRelations l l = ⟨[], [], []⟩ := by
  rw [diffRelations.eq_def]
  simp only [RelationDiffRes.mk.injEq]
  refine ⟨?_, ?_, ?_⟩
  · rw [List.filterMap_eq_nil_iff]
    intro p hp
    rw [mapGet_self_of_mem_indexBy keyRel l p hp]
  · rw [List.filterMap_eq_nil_iff]
    intro p hp
    rw [mapGet_self_of_mem_indexBy keyRel l p hp]
  · rw [List.filterMap_eq_nil_iff]
    intro p hp
    rw [mapGet_self_of_mem_indexBy keyRel l p hp]
    exact relationChangeEntry_self p.1 p.2

/-- A `find?` over a filterMap of a keyed map is the image of the lookup,
provided the produced values carry their key. -/
theorem find_filterMap_keyed (nameOf : β → String) (m : AMap α) (g : String → α → Option β)
    (Hname : ∀ k v e, g k v = some e → nameOf e = k) (n : String) (hnd : (keys m).Nodup) :
    (m.filterMap (fun p => g p.1 p.2)).find? (fun e => nameOf e = n)
      = (mapGet m n).bind (fun v => g n v) := by
  induction m with
  | nil => simp [mapGet]
  | cons p m ih =>
    have hnd' : p.1 ∉ keys m ∧ (keys m).Nodup := by
      rw [show keys (p :: m) = p.1 :: keys m from rfl] at hnd
      exact List.nodup_cons.mp hnd
    rw [List.filterMap_cons, mapGet_cons]
    cases hg : g p.1 p.2 with
    | some e =>
      by_cases hn : p.1 = n
      · rw [if_pos hn]
        rw [List.find?_cons_of_pos _ (by simp [Hname p.1 p.2 e hg, hn])]
        rw [show (some p.2).bind (fun v => g n v) = g n p.2 from rfl, ← hn, hg]
      · rw [if_neg hn]
        rw [List.find?_cons_of_neg _ (by simp [Hname p.1 p.2 e hg, hn])]
        exact ih hnd'.2
    | none =>
      by_cases hn : p.1 = n
      · rw [if_pos hn]
        rw [show (some p.2).bind (fun v => g n v) = g n p.2 from rfl, ← hn, hg]
        rw [List.find?_eq_none]
        intro e he
        rcases List.mem_filterMap.mp he with ⟨q, hq, hgq⟩
        have : nameOf e = q.1 := Hname q.1 q.2 e hgq
        simp only [this, decide_eq_true_eq]
        intro hc
        exact hnd'.1 (by
          rw [← hc]
          exact List.mem_map.mpr ⟨q, hq, rfl⟩)
      · rw [if_neg hn]
        exact ih hnd'.2

/-- Membership in a filterMap of a keyed map, phrased through the lookup. -/
theorem mem_filterMap_keyed (m : AMap α) (g : String → α → Option β)
    (hnd : (keys m).Nodup) (e : β) :
    e ∈ m.filterMap (fun p => g p.1 p.2) ↔ ∃ k v, mapGet m k = some v ∧ g k v = some e := by
  rw [List.mem_filterMap]
  constructor
  · rintro ⟨p, hp, hg⟩
    exact ⟨p.1, p.2,
      mapGet_eq_some_of_mem m p.1 p.2 hnd (by rwa [show (p.1, p.2) = p from rfl]), hg⟩
  · rintro ⟨k, v, hget, hg⟩
    exact ⟨(k, v), mem_of_mapGet_eq_some m k v hget, hg⟩

theorem sameAttr_comm (x y : Attr) : sameAttr x y = sameAttr y x := by
  simp only [sameAttr, decide_eq_decide]
  constructor
  · rintro ⟨h1, h2, h3, h4, h5⟩
    exact ⟨h1.symm, h2.symm, h3.symm, h4.symm, h5.symm⟩
  · rintro ⟨h1, h2, h3, h4, h5⟩
    exact ⟨h1.symm, h2.symm, h3.symm, h4.symm, h5.symm⟩

/-- Membership in the attribute `changed` report. -/
theorem diffAttrs_changed_mem (la lb : List Attr) (ch : AttrChange) :
    ch ∈ (diffAttrs la lb).2.2 ↔ ∃ k x y, mapGet (indexBy Attr.name la) k = some x ∧
      mapGet (indexBy Attr.name lb) k = some y ∧ sameAttr x y = false ∧ ch = ⟨k, x, y⟩ := by
  have h2 : ch ∈ (diffAttrs la lb).2.2 ↔ ∃ k v, mapGet (indexBy Attr.name la) k = some v ∧
      (match mapGet (indexBy Attr.name lb) k with
       | none => none
       | some atB => if sameAttr v atB then none
          else some (⟨k, v, atB⟩ : AttrChange)) = some ch :=
    mem_filterMap_keyed (indexBy Attr.name la)
      (fun k v => match mapGet (indexBy Attr.name lb) k with
       | none => none
       | some atB => if sameAttr v atB then none else some (⟨k, v, atB⟩ : AttrChange))
      (nodup_keys_indexBy Attr.name la) ch
  rw [h2]
  constructor
  · rintro ⟨k, v, hget, hg⟩
    cases hB : mapGet (indexBy Attr.name lb) k with
    | none => rw [hB] at hg; simp at hg
    | some y =>
      rw [hB] at hg
      have hg2 : (if sameAttr v y then none else some (⟨k, v, y⟩ : AttrChange)) = some ch := hg
      by_cases hs : sameAttr v y = true
      · rw [if_pos hs] at hg2
        simp at hg2
      · rw [if_neg hs] at hg2
        refine ⟨k, v, y, hget, hB, ?_, (Option.some.inj hg2).symm⟩
        revert hs
        cases sameAttr v y
        · intro _; rfl
        · intro hs2; exact absurd rfl hs2
  · rintro ⟨k, x, y, hx, hy, hs, rfl⟩
    refine ⟨k, x, hx, ?_⟩
    rw [hy]
    show (if sameAttr x y then none else some (⟨k, x, y⟩ : AttrChange)) = some ⟨k, x, y⟩
    rw [if_neg (by rw [hs]; exact Bool.noConfusion)]

/-- The attribute `changed` reports of the two diff directions mirror each
other elementwise. -/
theorem diffAttrs_changed_mirror (la lb : List Attr) (ch : AttrChange) :
    ch ∈ (diffAttrs la lb).2.2 ↔ mirrorAttrChange ch ∈ (diffAttrs lb la).2.2 := by
  rw [diffAttrs_changed_mem, diffAttrs_changed_mem]
  constructor
  · rintro ⟨k, x, y, hx, hy, hs, rfl⟩
    exact ⟨k, y, x, hy, hx, by rw [sameAttr_comm]; exact hs, rfl⟩
  · rintro ⟨k, y, x, hy, hx, hs, hm⟩
    have hch : ch = ⟨k, x, y⟩ := by
      have h2 : mirrorAttrChange (mirrorAttrChange ch) = ch := rfl
      rw [← h2, hm]
      rfl
    exact ⟨k, x, y, hx, hy, by rw [sameAttr_comm]; exact hs, hch⟩

theorem diffAttrs_changed_nil_mirror (la lb : List Attr) :
    (diffAttrs la lb).2.2 = [] ↔ (diffAttrs lb la).2.2 = [] := by
  rw [List.eq_nil_iff_forall_not_mem, List.eq_nil_iff_forall_not_mem]
  constructor
  · intro h ch hc
    have h2 : mirrorAttrChange (mirrorAttrChange ch) = ch := rfl
    exact h (mirrorAttrChange ch) ((diffAttrs_changed_mirror la lb (mirrorAttrChange ch)).mpr
      (by rwa [h2]))
  · intro h ch hc
    exact h (mirrorAttrChange ch) ((diffAttrs_changed_mirror la lb ch).mp hc)

/-- The two directions of the per-entity `changed` entry mirror each other. -/
theorem entityChangeEntry_mirror (n : String) (v w : Entity) :
    (match entityChangeEntry n v w, entityChangeEntry n w v with
      | none, none => True
      | some c, some c' =>
          c'.stereotype.«from» = c.stereotype.«to» ∧ c'.stereotype.«to» = c.stereotype.«from» ∧
          c'.attrAdded = c.attrRemoved ∧ c'.attrRemoved = c.attrAdded ∧
          (∀ ch, ch ∈ c.attrChanged ↔ mirrorAttrChange ch ∈ c'.attrChanged)
      | _, _ => False) := by
  rw [entityChangeEntry.eq_def, entityChangeEntry.eq_def]
  simp only
  by_cases hC : v.stereotype ≠ w.stereotype ∨ (diffAttrs v.attrs w.attrs).1 ≠ [] ∨
      (diffAttrs v.attrs w.attrs).2.1 ≠ [] ∨ (diffAttrs v.attrs w.attrs).2.2 ≠ []
  · have hC' : w.stereotype ≠ v.stereotype ∨ (diffAttrs w.attrs v.attrs).1 ≠ [] ∨
        (diffAttrs w.attrs v.attrs).2.1 ≠ [] ∨ (diffAttrs w.attrs v.attrs).2.2 ≠ [] := by
      rcases hC with h | h | h | h
      · exact Or.inl h.symm
      · exact Or.inr (Or.inr (Or.inl h))
      · exact Or.inr (Or.inl h)
      · exact Or.inr (Or.inr (Or.inr (fun hc =>
          h ((diffAttrs_changed_nil_mirror v.attrs w.attrs).mpr hc))))
    rw [if_pos hC, if_pos hC']
    exact ⟨rfl, rfl, rfl, rfl, fun ch => diffAttrs_changed_mirror v.attrs w.attrs ch⟩
  · have hC' : ¬(w.stereotype ≠ v.stereotype ∨ (diffAttrs w.attrs v.attrs).1 ≠ [] ∨
        (diffAttrs w.attrs v.attrs).2.1 ≠ [] ∨ (diffAttrs w.attrs v.attrs).2.2 ≠ []) := by
      intro h
      refine hC ?_
      rcases h with h | h | h | h
      · exact Or.inl h.symm
      · exact Or.inr (Or.inr (Or.inl h))
      · exact Or.inr (Or.inl h)
      · exact Or.inr (Or.inr (Or.inr (fun hc =>
          h ((diffAttrs_changed_nil_mirror v.attrs w.attrs).mp hc))))
    rw [if_neg hC, if_neg hC']
    trivial

/-- The two directions of the per-relation `changed` entry mirror each other. -/
theorem relationChangeEntry_mirror (k : String) (v w : Relation) :
    (match relationChangeEntry k v w, relationChangeEntry k w v with
      | none, none => True
      | some c, some c' => c'.key = c.key ∧ c'.«from» = c.«to» ∧ c'.«to» = c.«from»
      | _, _ => False) := by
  rw [relationChangeEntry.eq_def, relationChangeEntry.eq_def]
  by_cases hC : v.kind ≠ w.kind ∨ v.fromCard.getD "" ≠ w.fromCard.getD "" ∨
      v.toCard.getD "" ≠ w.toCard.getD ""
  · have hC' : w.kind ≠ v.kind ∨ w.fromCard.getD "" ≠ v.fromCard.getD "" ∨
        w.toCard.getD "" ≠ v.toCard.getD "" := by
      rcases hC with h | h | h
      · exact Or.inl h.symm
      · exact Or.inr (Or.inl h.symm)
      · exact Or.inr (Or.inr h.symm)
    rw [if_pos hC, if_pos hC']
    exact ⟨rfl, rfl, rfl⟩
  · have hC' : ¬(w.kind ≠ v.kind ∨ w.fromCard.getD "" ≠ v.fromCard.getD "" ∨
        w.toCard.getD "" ≠ v.toCard.getD "") := by
      intro h
      refine hC ?_
      rcases h with h | h | h
      · exact Or.inl h.symm
      · exact Or.inr (Or.inl h.symm)
      · exact Or.inr (Or.inr h.symm)
    rw [if_neg hC, if_neg hC']
    trivial

theorem entityChangeEntry_name (n : String) (v w : Entity) (e : EntityChange)
    (h : entityChangeEntry n v w = some e) : e.name = n := by
  rw [entityChangeEntry.eq_def] at h
  simp only at h
  split at h
  · rw [← Option.some.inj h]
  · exact absurd h (by simp)

theorem relationChangeEntry_key (k : String) (v w : Relation) (e : RelationChange)
    (h : relationChangeEntry k v w = some e) : e.key = k := by
  rw [relationChangeEntry.eq_def] at h
  split at h
  · rw [← Option.some.inj h]
  · exact absurd h (by simp)

/-- Looking an entity name up in the `changed` report is the per-name entry
of the two map lookups. -/
theorem diffEntities_changed_find (a b : List Entity) (n : String) :
    (diffEntities a b).changed.find? (fun c => c.name = n)
      = (match mapGet (indexBy Entity.name a) n, mapGet (indexBy Entity.name b) n with
        | some v, some w => entityChangeEntry n v w
        | _, _ => none) := by
  have h := find_filterMap_keyed EntityChange.name (indexBy Entity.name a)
    (fun k v => match mapGet (indexBy Entity.name b) k with
      | none => none
      | some eB => entityChangeEntry k v eB)
    (fun k v e hg => by
      simp only at hg
      cases hB : mapGet (indexBy Entity.name b) k with
      | none => rw [hB] at hg; simp at hg
      | some eB => rw [hB] at hg; exact entityChangeEntry_name k v eB e hg)
    n (nodup_keys_indexBy _ _)
  rw [show (diffEntities a b).changed = (indexBy Entity.name a).filterMap (fun p =>
    match mapGet (indexBy Entity.name b) p.1 with
    | none => none
    | some eB => entityChangeEntry p.1 p.2 eB) from rfl]
  rw [h]
  cases hA : mapGet (indexBy Entity.name a) n with
  | none => simp
  | some v =>
    cases hB : mapGet (indexBy Entity.name b) n with
    | none => simp [hB]
    | some w => simp [hB]

/-- Looking a relation key up in the `changed` report is the per-key entry
of the two map lookups. -/
theorem diffRelations_changed_find (a b : List Relation) (k : String) :
    (diffRelations a b).changed.find? (fun c => c.key = k)
      = (match mapGet (indexBy keyRel a) k, mapGet (indexBy keyRel b) k with
        | some v, some w => relationChangeEntry k v w
        | _, _ => none) := by
  have h := find_filterMap_keyed RelationChange.key (indexBy keyRel a)
    (fun k' v => match mapGet (indexBy keyRel b) k' with
      | none => none
      | some rB => relationChangeEntry k' v rB)
    (fun k' v e hg => by
      simp only at hg
      cases hB : mapGet (indexBy keyRel b) k' with
      | none => rw [hB] at hg; simp at hg
      | some rB => rw [hB] at hg; exact relationChangeEntry_key k' v rB e hg)
    k (nodup_keys_indexBy _ _)
  rw [show (diffRelations a b).changed = (indexBy keyRel a).filterMap (fun p =>
    match mapGet (indexBy keyRel b) p.1 with
    | none => none
    | some rB => relationChangeEntry p.1 p.2 rB) from rfl]
  rw [h]
  cases hA : mapGet (indexBy keyRel a) k with
  | none => simp
  | some v =>
    cases hB : mapGet (indexBy keyRel b) k with
    | none => simp [hB]
    | some w => simp [hB]

theorem getVersion_ok_mem (s : Store) (pid vid : String) (v : ModelVersion)
    (h : getVersion s pid vid = Except.ok v) :
    v ∈ s.versions ∧ v.id = vid ∧ v.projectId = pid := by
  rw [getVersion.eq_def] at h
  cases hf : s.versions.find? (fun w => decide (w.id = vid ∧ w.projectId = pid)) with
  | none => rw [hf] at h; exact absurd h (by simp)
  | some w =>
    rw [hf] at h
    have hw : w = v := by
      have := Except.ok.inj h
      exact this
    have hmem := List.mem_of_find?_eq_some hf
    have hpred := List.find?_some hf
    simp only [decide_eq_true_eq] at hpred
    exact ⟨hw ▸ hmem, hw ▸ hpred.1, hw ▸ hpred.2⟩

theorem latestGo_mem (l : List ModelVersion) :
    ∀ (acc : Option ModelVersion) (v : ModelVersion),
      l.foldl (fun acc w => match acc with
        | none => some w
        | some m => if m.createdAt < w.createdAt then some w else acc) acc = some v →
      v ∈ l ∨ acc = some v := by
  induction l with
  | nil => intro acc v h; exact Or.inr h
  | cons w ws ih =>
    intro acc v h
    rw [List.foldl_cons] at h
    rcases ih _ v h with h' | h'
    · exact Or.inl (List.mem_cons_of_mem _ h')
    · cases acc with
      | none =>
        have h'' : some w = some v := h'
        exact Or.inl ((Option.some.inj h'') ▸ List.mem_cons_self _ _)
      | some m =>
        have h'' : (if m.createdAt < w.createdAt then some w else some m) = some v := h'
        by_cases hlt : m.createdAt < w.createdAt
        · rw [if_pos hlt] at h''
          exact Or.inl ((Option.some.inj h'') ▸ List.mem_cons_self _ _)
        · rw [if_neg hlt] at h''
          exact Or.inr h''

theorem latestGo_max (l : List ModelVersion) :
    ∀ (acc : Option ModelVersion) (v : ModelVersion),
      l.foldl (fun acc w => match acc with
        | none => some w
        | some m => if m.createdAt < w.createdAt then some w else acc) acc = some v →
      (∀ u ∈ l, u.createdAt ≤ v.createdAt) ∧
      (∀ m0, acc = some m0 → m0.createdAt ≤ v.createdAt) := by
  induction l with
  | nil =>
    intro acc v h
    refine ⟨by simp, fun m0 hm0 => ?_⟩
    rw [hm0] at h
    rw [Option.some.inj h]
  | cons w ws ih =>
    intro acc v h
    rw [List.foldl_cons] at h
    have IH := ih _ v h
    have hw : w.createdAt ≤ v.createdAt := by
      cases acc with
      | none => exact IH.2 w rfl
      | some m =>
        by_cases hlt : m.createdAt < w.createdAt
        · refine IH.2 w ?_
          show (if m.createdAt < w.createdAt then some w else some m) = some w
          rw [if_pos hlt]
        · have hm : m.createdAt ≤ v.createdAt := by
            refine IH.2 m ?_
            show (if m.createdAt < w.createdAt then some w else some m) = some m
            rw [if_neg hlt]
          exact le_trans (le_of_not_lt hlt) hm
    refine ⟨fun u hu => ?_, fun m0 hm0 => ?_⟩
    · rcases List.mem_cons.mp hu with rfl | hu'
      · exact hw
      · exact IH.1 u hu'
    · cases acc with
      | none => exact absurd hm0 (by simp)
      | some m =>
        have hm0' : m = m0 := Option.some.inj hm0
        by_cases hlt : m.createdAt < w.createdAt
        · have : w.createdAt ≤ v.createdAt := by
            refine IH.2 w ?_
            show (if m.createdAt < w.createdAt then some w else some m) = some w
            rw [if_pos hlt]
          exact hm0' ▸ le_trans (le_of_lt hlt) this
        · refine hm0' ▸ IH.2 m ?_
          show (if m.createdAt < w.createdAt then some w else some m) = some m
          rw [if_neg hlt]

theorem latestGo_isSome (l : List ModelVersion) :
    ∀ (m : ModelVersion),
      (l.foldl (fun acc w => match acc with
        | none => some w
        | some m => if m.createdAt < w.createdAt then some w else acc) (some m)).isSome := by
  induction l with
  | nil => intro m; rfl
  | cons w ws ih =>
    intro m
    rw [List.foldl_cons]
    show (List.foldl (fun acc w => match acc with
        | none => some w
        | some m => if m.createdAt < w.createdAt then some w else acc)
        (if m.createdAt < w.createdAt then some w else some m) ws).isSome = true
    by_cases hlt : m.createdAt < w.createdAt
    · rw [if_pos hlt]
      exact ih w
    · rw [if_neg hlt]
      exact ih m

theorem latestOnBranch_isSome (s : Store) (pid bid : String) (v : ModelVersion)
    (hv : v ∈ s.versions) (hp : v.projectId = pid) (hb : v.branchId = bid) :
    ∃ m, latestOnBranch s pid bid = some m := by
  rw [latestOnBranch.eq_def]
  have hvf : v ∈ s.versions.filter (fun w => decide (w.projectId = pid ∧ w.branchId = bid)) :=
    List.mem_filter.mpr ⟨hv, by simp [hp, hb]⟩
  cases hfl : s.versions.filter (fun w => decide (w.projectId = pid ∧ w.branchId = bid)) with
  | nil => rw [hfl] at hvf; simp at hvf
  | cons w ws =>
    rw [List.foldl_cons]
    exact Option.isSome_iff_exists.mp (latestGo_isSome ws w)

theorem latestOnBranch_spec (s : Store) (pid bid : String) (m : ModelVersion)
    (h : latestOnBranch s pid bid = some m) :
    m ∈ s.versions ∧ m.projectId = pid ∧ m.branchId = bid ∧
    (∀ w ∈ s.versions, w.projectId = pid → w.branchId = bid →
      w.createdAt ≤ m.createdAt) := by
  rw [latestOnBranch.eq_def] at h
  have hmem := latestGo_mem _ none m h
  have hmax := latestGo_max _ none m h
  rcases hmem with hm | hm
  · have hf := List.mem_filter.mp hm
    simp only [decide_eq_true_eq] at hf
    refine ⟨hf.1, hf.2.1, hf.2.2, fun w hw hwp hwb => ?_⟩
    exact hmax.1 w (List.mem_filter.mpr ⟨hw, by simp [hwp, hwb]⟩)
  · exact absurd hm (by simp)

theorem insertSet_length (l : List String) (x : String) :
    (insertSet l x).length ≤ l.length + 1 := by
  rw [insertSet]
  split
  · exact Nat.le_succ _
  · simp

theorem traceParentsGo_length (s : Store) (pid : String) :
    ∀ (fuel : Nat) (cur : ModelVersion) (visited vs : List String),
      traceParentsGo s pid fuel cur visited = Except.ok vs →
      vs.length ≤ visited.length + fuel := by
  intro fuel
  induction fuel with
  | zero =>
    intro cur visited vs h
    rw [traceParentsGo] at h
    rw [← Except.ok.inj h]
    simp
  | succ l ih =>
    intro cur visited vs h
    rw [traceParentsGo] at h
    cases hp : cur.parentVersionId with
    | none =>
      rw [hp] at h
      have h2 : Except.ok (ε := Err) (insertSet visited cur.id) = Except.ok vs := h
      rw [← Except.ok.inj h2]
      calc (insertSet visited cur.id).length ≤ visited.length + 1 := insertSet_length _ _
        _ ≤ visited.length + (l + 1) := by omega
    | some p =>
      rw [hp] at h
      have h2 : (match getVersion s pid p with
        | Except.error e => Except.error e
        | Except.ok nxt => traceParentsGo s pid l nxt (insertSet visited cur.id))
          = Except.ok vs := h
      cases hg : getVersion s pid p with
      | error e => rw [hg] at h2; exact absurd h2 (by simp)
      | ok nxt =>
        rw [hg] at h2
        calc vs.length ≤ (insertSet visited cur.id).length + l := ih nxt _ vs h2
          _ ≤ visited.length + 1 + l := by
            have := insertSet_length visited cur.id
            omega
          _ = visited.length + (l + 1) := by omega

theorem getVersion_isOk_of_exists (s : Store) (pid vid : String)
    (h : ∃ w ∈ s.versions, w.id = vid ∧ w.projectId = pid) :
    ∃ u, getVersion s pid vid = Except.ok u := by
  rw [getVersion.eq_def]
  rcases h with ⟨w, hw, hid, hpid⟩
  cases hf : s.versions.find? (fun v => decide (v.id = vid ∧ v.projectId = pid)) with
  | some u => exact ⟨u, rfl⟩
  | none =>
    rw [List.find?_eq_none] at hf
    exact absurd (by simp [hid, hpid]) (hf w hw)

theorem wellFormedParents_resolves (s : Store) (pid : String)
    (hwf : wellFormedParents s = true) (v : ModelVersion) (hv : v ∈ s.versions)
    (hpid : v.projectId = pid) (p : String) (hp : v.parentVersionId = some p) :
    ∃ u, getVersion s pid p = Except.ok u := by
  rw [wellFormedParents, List.all_eq_true] at hwf
  have h := hwf v hv
  rw [hp] at h
  simp only [List.any_eq_true, decide_eq_true_eq] at h
  rcases h with ⟨w, hw, hwid, hwpid⟩
  exact getVersion_isOk_of_exists s pid p ⟨w, hw, hwid, hpid ▸ hwpid⟩

theorem traceParentsGo_isOk (s : Store) (pid : String)
    (hwf : wellFormedParents s = true) :
    ∀ (fuel : Nat) (cur : ModelVersion) (visited : List String),
      cur ∈ s.versions → cur.projectId = pid →
      ∃ vs, traceParentsGo s pid fuel cur visited = Except.ok vs := by
  intro fuel
  induction fuel with
  | zero =>
    intro cur visited _ _
    exact ⟨visited, rfl⟩
  | succ l ih =>
    intro cur visited hcur hcp
    rw [traceParentsGo]
    cases hp : cur.parentVersionId with
    | none => exact ⟨insertSet visited cur.id, rfl⟩
    | some p =>
      rcases wellFormedParents_resolves s pid hwf cur hcur hcp p hp with ⟨u, hu⟩
      have hum := getVersion_ok_mem s pid p u hu
      show ∃ vs, (match getVersion s pid p with
        | Except.error e => Except.error e
        | Except.ok nxt => traceParentsGo s pid l nxt (insertSet visited cur.id))
          = Except.ok vs
      rw [hu]
      exact ih u (insertSet visited cur.id) hum.1 hum.2.2

theorem findAncGo_isOk (s : Store) (pid : String) (aAnc : List String)
    (hwf : wellFormedParents s = true) :
    ∀ (fuel : Nat) (cur : ModelVersion),
      cur ∈ s.versions → cur.projectId = pid →
      ∃ r, findAncGo s pid aAnc fuel cur = Except.ok r := by
  intro fuel
  induction fuel with
  | zero =>
    intro cur _ _
    exact ⟨none, rfl⟩
  | succ l ih =>
    intro cur hcur hcp
    rw [findAncGo]
    by_cases hmem : cur.id ∈ aAnc
    · rw [if_pos hmem]
      exact ⟨some cur, rfl⟩
    · rw [if_neg hmem]
      cases hp : cur.parentVersionId with
      | none => exact ⟨none, rfl⟩
      | some p =>
        rcases wellFormedParents_resolves s pid hwf cur hcur hcp p hp with ⟨u, hu⟩
        have hum := getVersion_ok_mem s pid p u hu
        show ∃ r, (match getVersion s pid p with
          | Except.error e => Except.error e
          | Except.ok nxt => findAncGo s pid aAnc l nxt) = Except.ok r
        rw [hu]
        exact ih u hum.1 hum.2.2

/-! ### Claim theorems -/

/-- C6: the structural diff is antisymmetric. For every pair of documents
A and B: `diff(A,B).entities.added = diff(B,A).entities.removed` and
conversely, as lists; and the changed sets mirror each other with from/to
swapped — for every entity name, the changed entry exists in one direction
exactly when it exists in the other, with the stereotype change reversed,
`attrAdded`/`attrRemoved` swapped, and the attribute changes mirrored
elementwise. The same holds for relations. -/
theorem diff_antisymmetry (A B : DSL) :
    (diffEntities A.entities B.entities).added = (diffEntities B.entities A.entities).removed ∧
    (diffEntities A.entities B.entities).removed = (diffEntities B.entities A.entities).added ∧
    (∀ n, match (diffEntities A.entities B.entities).changed.find? (fun c => c.name = n),
        (diffEntities B.entities A.entities).changed.find? (fun c => c.name = n) with
      | none, none => True
      | some c, some c' =>
          c'.stereotype.«from» = c.stereotype.«to» ∧ c'.stereotype.«to» = c.stereotype.«from» ∧
          c'.attrAdded = c.attrRemoved ∧ c'.attrRemoved = c.attrAdded ∧
          (∀ ch, ch ∈ c.attrChanged ↔ mirrorAttrChange ch ∈ c'.attrChanged)
      | _, _ => False) ∧
    (diffRelations A.relations B.relations).added
      = (diffRelations B.relations A.relations).removed ∧
    (diffRelations A.relations B.relations).removed
      = (diffRelations B.relations A.relations).added ∧
    (∀ k, match (diffRelations A.relations B.relations).changed.find? (fun c => c.key = k),
        (diffRelations B.relations A.relations).changed.find? (fun c => c.key = k) with
      | none, none => True
      | some c, some c' => c'.key = c.key ∧ c'.«from» = c.«to» ∧ c'.«to» = c.«from»
      | _, _ => False) := by
  refine ⟨rfl, rfl, ?_, rfl, rfl, ?_⟩
  · intro n
    rw [diffEntities_changed_find, diffEntities_changed_find]
    cases hA : mapGet (indexBy Entity.name A.entities) n with
    | none =>
      cases hB : mapGet (indexBy Entity.name B.entities) n with
      | none => trivial
      | some w => trivial
    | some v =>
      cases hB : mapGet (indexBy Entity.name B.entities) n with
      | none => trivial
      | some w => exact entityChangeEntry_mirror n v w
  · intro k
    rw [diffRelations_changed_find, diffRelations_changed_find]
    cases hA : mapGet (indexBy keyRel A.relations) k with
    | none =>
      cases hB : mapGet (indexBy keyRel B.relations) k with
      | none => trivial
      | some w => trivial
    | some v =>
      cases hB : mapGet (indexBy keyRel B.relations) k with
      | none => trivial
      | some w => exact relationChangeEntry_mirror k v w

/-- C7: for every version V resolvable in the project, restore(V) creates a
new version on V's own branch whose content deep-equals V's content and
whose parent is the branch's current head — the version on the branch with
maximum createdAt — not necessarily V itself. -/
theorem restore_parent_is_head (s : Store) (pid uid vid : String) (msg : Option String)
    (newId : String) (now : Nat) (v : ModelVersion)
    (hv : getVersion s pid vid = Except.ok v) :
    ∃ m created s', latestOnBranch s pid v.branchId = some m ∧
      restore s pid uid vid msg newId now = Except.ok (s', created) ∧
      created.content = v.content ∧
      created.branchId = v.branchId ∧
      created.parentVersionId = some m.id ∧
      m ∈ s.versions ∧ m.projectId = pid ∧ m.branchId = v.branchId ∧
      (∀ w ∈ s.versions, w.projectId = pid → w.branchId = v.branchId →
        w.createdAt ≤ m.createdAt) ∧
      s'.versions = s.versions ++ [created] := by
  have hvm := getVersion_ok_mem s pid vid v hv
  rcases latestOnBranch_isSome s pid v.branchId v hvm.1 hvm.2.2 rfl with ⟨m, hm⟩
  have hms := latestOnBranch_spec s pid v.branchId m hm
  have hres : restore s pid uid vid msg newId now = Except.ok
      (Store.mk s.branches
        (s.versions ++
          [⟨newId, pid, v.branchId, (latestOnBranch s pid v.branchId).map ModelVersion.id,
            uid, msg.getD ("restore: " ++ strTake v.id 7), v.content, now⟩])
        s.merges
        (s.audits ++ [⟨pid, uid, "MODEL_SNAPSHOT", "ModelVersion", newId⟩]),
       ⟨newId, pid, v.branchId, (latestOnBranch s pid v.branchId).map ModelVersion.id,
         uid, msg.getD ("restore: " ++ strTake v.id 7), v.content, now⟩) := by
    rw [restore.eq_def, hv]
  refine ⟨m, _, _, hm, hres, rfl, rfl, ?_, hms.1, hms.2.1, hms.2.2.1, hms.2.2.2, rfl⟩
  show (latestOnBranch s pid v.branchId).map ModelVersion.id = some m.id
  rw [hm]
  rfl

/-- Witness for C7: restoring version v1 on a branch whose head is the later
version v2 yields a snapshot with v1's content and parent v2. -/
theorem restore_parent_is_head_witness :
    getVersion ⟨[], [⟨"v1", "p", "b", none, "u", "m", ⟨[], [], none⟩, 1⟩,
        ⟨"v2", "p", "b", none, "u", "m", ⟨[], [], none⟩, 5⟩], [], []⟩ "p" "v1"
      = Except.ok ⟨"v1", "p", "b", none, "u", "m", ⟨[], [], none⟩, 1⟩ ∧
    (∃ m created s', latestOnBranch ⟨[], [⟨"v1", "p", "b", none, "u", "m", ⟨[], [], none⟩, 1⟩,
        ⟨"v2", "p", "b", none, "u", "m", ⟨[], [], none⟩, 5⟩], [], []⟩ "p"
        (⟨"v1", "p", "b", none, "u", "m", ⟨[], [], none⟩, 1⟩ : ModelVersion).branchId = some m ∧
      restore ⟨[], [⟨"v1", "p", "b", none, "u", "m", ⟨[], [], none⟩, 1⟩,
        ⟨"v2", "p", "b", none, "u", "m", ⟨[], [], none⟩, 5⟩], [], []⟩ "p" "u" "v1" none "n1" 9
        = Except.ok (s', created) ∧
      created.content = (⟨"v1", "p", "b", none, "u", "m", ⟨[], [], none⟩, 1⟩ : ModelVersion).content ∧
      created.branchId = (⟨"v1", "p", "b", none, "u", "m", ⟨[], [], none⟩, 1⟩ : ModelVersion).branchId ∧
      created.parentVersionId = some m.id ∧
      m ∈ (⟨[], [⟨"v1", "p", "b", none, "u", "m", ⟨[], [], none⟩, 1⟩,
        ⟨"v2", "p", "b", none, "u", "m", ⟨[], [], none⟩, 5⟩], [], []⟩ : Store).versions ∧
      m.projectId = "p" ∧
      m.branchId = (⟨"v1", "p", "b", none, "u", "m", ⟨[], [], none⟩, 1⟩ : ModelVersion).branchId ∧
      (∀ w ∈ (⟨[], [⟨"v1", "p", "b", none, "u", "m", ⟨[], [], none⟩, 1⟩,
          ⟨"v2", "p", "b", none, "u", "m", ⟨[], [], none⟩, 5⟩], [], []⟩ : Store).versions,
        w.projectId = "p" →
        w.branchId = (⟨"v1", "p", "b", none, "u", "m", ⟨[], [], none⟩, 1⟩ : ModelVersion).branchId →
        w.createdAt ≤ m.createdAt) ∧
      s'.versions = (⟨[], [⟨"v1", "p", "b", none, "u", "m", ⟨[], [], none⟩, 1⟩,
        ⟨"v2", "p", "b", none, "u", "m", ⟨[], [], none⟩, 5⟩], [], []⟩ : Store).versions
          ++ [created]) :=
  ⟨rfl,
   restore_parent_is_head ⟨[], [⟨"v1", "p", "b", none, "u", "m", ⟨[], [], none⟩, 1⟩,
      ⟨"v2", "p", "b", none, "u", "m", ⟨[], [], none⟩, 5⟩], [], []⟩ "p" "u" "v1" none "n1" 9
     ⟨"v1", "p", "b", none, "u", "m", ⟨[], [], none⟩, 1⟩ rfl⟩

/-- C8: the common-ancestor search terminates on every input — both walks
are fuel-bounded by the cap `limit = 200` of the source (the embedding is
structurally recursive on that fuel), the first walk's visited set never
exceeds 200 ids, and on a store whose parent pointers all resolve within
the project (cyclic chains included) the search never raises: exhausting
the cap or the chains without a hit yields `Except.ok` of a result
(`none` rather than an error). -/
theorem ancestor_search_bounded (s : Store) (pid aId bId : String) :
    (∀ vs, traceParents s pid aId = Except.ok vs → vs.length ≤ 200) ∧
    (wellFormedParents s = true →
      (∃ a0, getVersion s pid aId = Except.ok a0) →
      (∃ b0, getVersion s pid bId = Except.ok b0) →
      ∃ r, findCommonAncestor s pid aId bId = Except.ok r) := by
  constructor
  · intro vs h
    rw [traceParents.eq_def] at h
    cases hg : getVersion s pid aId with
    | error e => rw [hg] at h; exact absurd h (by simp)
    | ok c =>
      rw [hg] at h
      have := traceParentsGo_length s pid 200 c [] vs h
      simpa using this
  · rintro hwf ⟨a0, ha0⟩ ⟨b0, hb0⟩
    have ham := getVersion_ok_mem s pid aId a0 ha0
    have hbm := getVersion_ok_mem s pid bId b0 hb0
    rcases traceParentsGo_isOk s pid hwf 200 a0 [] ham.1 ham.2.2 with ⟨vs, hvs⟩
    rcases findAncGo_isOk s pid vs hwf 200 b0 hbm.1 hbm.2.2 with ⟨r, hr⟩
    refine ⟨r, ?_⟩
    rw [findCommonAncestor.eq_def, traceParents.eq_def, ha0]
    show (match traceParentsGo s pid 200 a0 [] with
      | Except.error e => Except.error e
      | Except.ok aAnc =>
        match getVersion s pid bId with
        | Except.error e => Except.error e
        | Except.ok c => findAncGo s pid aAnc 200 c) = Except.ok r
    rw [hvs, hb0]
    exact hr

/-- Witness for C8 on a store with CYCLIC parent chains (`A ↔ B`, `C → C`):
the search still returns `Except.ok` (the cap stops both walks), and the
first walk's visited list stays within the bound. -/
theorem ancestor_search_bounded_witness :
    (wellFormedParents ⟨[], [⟨"A", "p", "b", some "B", "u", "m", ⟨[], [], none⟩, 1⟩,
        ⟨"B", "p", "b", some "A", "u", "m", ⟨[], [], none⟩, 1⟩,
        ⟨"C", "p", "b", some "C", "u", "m", ⟨[], [], none⟩, 1⟩], [], []⟩ = true ∧
     (∃ a0, getVersion ⟨[], [⟨"A", "p", "b", some "B", "u", "m", ⟨[], [], none⟩, 1⟩,
        ⟨"B", "p", "b", some "A", "u", "m", ⟨[], [], none⟩, 1⟩,
        ⟨"C", "p", "b", some "C", "u", "m", ⟨[], [], none⟩, 1⟩], [], []⟩ "p" "A"
        = Except.ok a0) ∧
     (∃ b0, getVersion ⟨[], [⟨"A", "p", "b", some "B", "u", "m", ⟨[], [], none⟩, 1⟩,
        ⟨"B", "p", "b", some "A", "u", "m", ⟨[], [], none⟩, 1⟩,
        ⟨"C", "p", "b", some "C", "u", "m", ⟨[], [], none⟩, 1⟩], [], []⟩ "p" "C"
        = Except.ok b0)) ∧
    (∀ vs, traceParents ⟨[], [⟨"A", "p", "b", some "B", "u", "m", ⟨[], [], none⟩, 1⟩,
        ⟨"B", "p", "b", some "A", "u", "m", ⟨[], [], none⟩, 1⟩,
        ⟨"C", "p", "b", some "C", "u", "m", ⟨[], [], none⟩, 1⟩], [], []⟩ "p" "A"
        = Except.ok vs → vs.length ≤ 200) ∧
    (∃ r, findCommonAncestor ⟨[], [⟨"A", "p", "b", some "B", "u", "m", ⟨[], [], none⟩, 1⟩,
        ⟨"B", "p", "b", some "A", "u", "m", ⟨[], [], none⟩, 1⟩,
        ⟨"C", "p", "b", some "C", "u", "m", ⟨[], [], none⟩, 1⟩], [], []⟩ "p" "A" "C"
        = Except.ok r) :=
  ⟨⟨by decide, ⟨⟨"A", "p", "b", some "B", "u", "m", ⟨[], [], none⟩, 1⟩, rfl⟩,
    ⟨⟨"C", "p", "b", some "C", "u", "m", ⟨[], [], none⟩, 1⟩, rfl⟩⟩,
   (ancestor_search_bounded ⟨[], [⟨"A", "p", "b", some "B", "u", "m", ⟨[], [], none⟩, 1⟩,
      ⟨"B", "p", "b", some "A", "u", "m", ⟨[], [], none⟩, 1⟩,
      ⟨"C", "p", "b", some "C", "u", "m", ⟨[], [], none⟩, 1⟩], [], []⟩ "p" "A" "C").1,
   (ancestor_search_bounded ⟨[], [⟨"A", "p", "b", some "B", "u", "m", ⟨[], [], none⟩, 1⟩,
      ⟨"B", "p", "b", some "A", "u", "m", ⟨[], [], none⟩, 1⟩,
      ⟨"C", "p", "b", some "C", "u", "m", ⟨[], [], none⟩, 1⟩], [], []⟩ "p" "A" "C").2
     (by decide)
     ⟨⟨"A", "p", "b", some "B", "u", "m", ⟨[], [], none⟩, 1⟩, rfl⟩
     ⟨⟨"C", "p", "b", some "C", "u", "m", ⟨[], [], none⟩, 1⟩, rfl⟩⟩

/-- C9: for every base, ours and theirs, the merged document's constraints
sequence equals base's constraints (the empty sequence when base has none);
consequently constraints present only in ours or only in theirs never
appear in the merge result. -/
theorem merge_constraints_from_base (base ours theirs : DSL) :
    (threeWayMerge base ours theirs).1.constraints = some (base.constraints.getD []) := rfl

/-- C3: the merge commit is NOT atomic. The source issues four separate
writes (`merge.create`, `modelVersion.create`, `merge.update`,
`auditLog.create`) with no surrounding transaction; stopping after the
first write of `mergeCommitOps` leaves a store holding the merge record
while the result version and the audit entry do not exist — exactly the
partial state the claim says cannot occur. -/
theorem merge_commit_partial_state :
    (applyOps ⟨[], [], [], []⟩
        ((mergeCommitOps "p" "u" "sb" "tb" "sv" "tv" "m1" "v1" [] ⟨[], [], none⟩ 0).take 1)).merges
      = [⟨"m1", "p", "sb", "tb", "sv", "tv", MergeStatus.COMPLETED, none, none, "u"⟩] ∧
    (applyOps ⟨[], [], [], []⟩
        ((mergeCommitOps "p" "u" "sb" "tb" "sv" "tv" "m1" "v1" [] ⟨[], [], none⟩ 0).take 1)).versions
      = [] ∧
    (applyOps ⟨[], [], [], []⟩
        ((mergeCommitOps "p" "u" "sb" "tb" "sv" "tv" "m1" "v1" [] ⟨[], [], none⟩ 0).take 1)).audits
      = [] := by
  decide

/-- C10: when `createBranch` is called with a non-empty name and a
`fromVersionId` that does not resolve within the project, it throws
NotFound, but the branch row has already been created and persists, with
no seed version and no audit entry written. -/
theorem createBranch_orphan_on_notFound (s : Store) (pid uid nm f bid vid : String)
    (now : Nat) (hname : strTrim nm ≠ "")
    (hmiss : ∀ v ∈ s.versions, ¬(v.id = f ∧ v.projectId = pid)) :
    createBranch s pid uid nm (some f) bid vid now =
      ({ s with branches := s.branches ++ [⟨bid, pid, strTrim nm, false, uid⟩] },
        Except.error Err.notFound) := by
  rw [createBranch]
  rw [if_neg hname]
  have hget : getVersion { s with branches := s.branches ++ [⟨bid, pid, strTrim nm, false, uid⟩] } pid f
      = Except.error Err.notFound := by
    rw [getVersion]
    have : List.find? (fun v => decide (v.id = f ∧ v.projectId = pid)) s.versions = none := by
      rw [List.find?_eq_none]
      intro v hv
      simpa using hmiss v hv
    rw [show ({ s with branches := s.branches ++ [⟨bid, pid, strTrim nm, false, uid⟩] } : Store).versions
      = s.versions from rfl, this]
  simp only [hget]

/-- Witness for C10 at a concrete store: the branch row survives the
NotFound error with no version and no audit row. -/
theorem createBranch_orphan_on_notFound_witness :
    (strTrim "feat" ≠ "" ∧ ∀ v ∈ (([] : List ModelVersion)), ¬(v.id = "x" ∧ v.projectId = "p")) ∧
    createBranch ⟨[], [], [], []⟩ "p" "u" "feat" (some "x") "b1" "v1" 0 =
      ({ (⟨[], [], [], []⟩ : Store) with
          branches := (⟨[], [], [], []⟩ : Store).branches ++ [⟨"b1", "p", strTrim "feat", false, "u"⟩] },
        Except.error Err.notFound) :=
  ⟨⟨by decide, by simp⟩,
    createBranch_orphan_on_notFound ⟨[], [], [], []⟩ "p" "u" "feat" "x" "b1" "v1" 0
      (by decide) (by simp)⟩

/-- C1 counterexample: base and ours hold attribute `a : int` of entity `E`,
theirs changes it to `a : string` — the two sides are unequal and exactly
one side (ours) equals base, so the claim requires the merged document to
keep theirs's value (`string`). The merge records no conflict but keeps
ours's value (`int`), so the claim is false at this input. -/
theorem merge_changed_side_counterexample :
    (threeWayMerge
        ⟨[⟨"E", none, [⟨"a", "int", none, none, none⟩]⟩], [], none⟩
        ⟨[⟨"E", none, [⟨"a", "int", none, none, none⟩]⟩], [], none⟩
        ⟨[⟨"E", none, [⟨"a", "string", none, none, none⟩]⟩], [], none⟩).2 = [] ∧
    (threeWayMerge
        ⟨[⟨"E", none, [⟨"a", "int", none, none, none⟩]⟩], [], none⟩
        ⟨[⟨"E", none, [⟨"a", "int", none, none, none⟩]⟩], [], none⟩
        ⟨[⟨"E", none, [⟨"a", "string", none, none, none⟩]⟩], [], none⟩).1.entities
      = [⟨"E", none, [⟨"a", "int", none, none, none⟩]⟩] ∧
    (⟨"a", "int", none, none, none⟩ : Attr) ≠ ⟨"a", "string", none, none, none⟩ := by
  decide

/-- C2 counterexample: X contains entity `E`, Y is empty. Merging with
base = X, ours = X, theirs = Y yields zero conflicts but a merged document
that still contains `E` (the deletion in theirs is undone, source line 208),
so the merged document is not Y's content. -/
theorem fast_forward_counterexample :
    (threeWayMerge ⟨[⟨"E", none, []⟩], [], none⟩ ⟨[⟨"E", none, []⟩], [], none⟩
        ⟨[], [], none⟩).2 = [] ∧
    (threeWayMerge ⟨[⟨"E", none, []⟩], [], none⟩ ⟨[⟨"E", none, []⟩], [], none⟩
        ⟨[], [], none⟩).1.entities = [⟨"E", none, []⟩] ∧
    (⟨[], [], none⟩ : DSL).entities = [] := by
  decide

/-- C4 counterexample: base's entity `E` has stereotype `"ent"`, ours has no
stereotype, theirs has `"agg"` — all three pairwise different, so a conflict
is recorded; but the merged document resolves the stereotype to
`ours ?? theirs ?? base` = `"agg"`, i.e. theirs's value, not ours's, so the
claim's resolution clause is false at this input. -/
theorem conflict_resolution_counterexample :
    (threeWayMerge ⟨[⟨"E", some "ent", []⟩], [], none⟩ ⟨[⟨"E", none, []⟩], [], none⟩
        ⟨[⟨"E", some "agg", []⟩], [], none⟩).2
      = [Conflict.entityStereotype "E" none (some "agg")] ∧
    (threeWayMerge ⟨[⟨"E", some "ent", []⟩], [], none⟩ ⟨[⟨"E", none, []⟩], [], none⟩
        ⟨[⟨"E", some "agg", []⟩], [], none⟩).1.entities = [⟨"E", some "agg", []⟩] := by
  decide

/-- C1 (amended): for an attribute present in both ours and theirs whose
two values are unequal (under the merge's normalized comparison) while at
least one side equals base's value, the merged document keeps OURS's
stored value and no conflict is recorded for that key; the same holds for
relations. This keeps the changed side's value only when ours is the side
that changed — when theirs changed and ours equals base, theirs's change
is silently discarded (see the counterexample). -/
theorem merge_one_side_equals_base_keeps_ours (base ours theirs : DSL) :
    (∀ (n an : String) (o' t' be : Entity) (ao atv b0 : Attr),
      mapGet (indexBy Entity.name ours.entities) n = some o' →
      mapGet (indexBy Entity.name theirs.entities) n = some t' →
      mapGet (indexBy Entity.name base.entities) n = some be →
      o'.attrs.find? (fun a => a.name = an) = some ao →
      t'.attrs.find? (fun a => a.name = an) = some atv →
      be.attrs.find? (fun a => a.name = an) = some b0 →
      sameAttrM ao atv = false →
      (sameAttrM ao b0 = true ∨ sameAttrM atv b0 = true) →
      (∃ e, (threeWayMerge base ours theirs).1.entities.find? (fun x => x.name = n) = some e ∧
        e.attrs.find? (fun a => a.name = an) = some ao) ∧
      (∀ x y, Conflict.attr n an x y ∉ (threeWayMerge base ours theirs).2)) ∧
    (∀ (k : String) (o2 t2 b2 : Relation),
      mapGet (indexBy keyRel ours.relations) k = some o2 →
      mapGet (indexBy keyRel theirs.relations) k = some t2 →
      mapGet (indexBy keyRel base.relations) k = some b2 →
      relEq o2 t2 = false →
      (relEq o2 b2 = true ∨ relEq t2 b2 = true) →
      (threeWayMerge base ours theirs).1.relations.find? (fun r => keyRel r = k) = some o2 ∧
      (∀ x y, Conflict.relation k x y ∉ (threeWayMerge base ours theirs).2)) := by
  constructor
  · intro n an o' t' be ao atv b0 ho ht hb hao hatv hb0 hne hone
    have hnmem : n ∈ keys (indexBy Entity.name base.entities) ++
        keys (indexBy Entity.name ours.entities) ++
        keys (indexBy Entity.name theirs.entities) :=
      List.mem_append.mpr (Or.inl (List.mem_append.mpr (Or.inr (mem_keys_of_mapGet _ _ _ ho))))
    have hfind := twm_entities_find base ours theirs n hnmem
    rw [entStep, ho, ht, hb, mergeEntityCase] at hfind
    have hE : ∃ e, (mergeEntityBoth n (some be) o' t').1 = some e := ⟨_, rfl⟩
    rcases hE with ⟨e, hE⟩
    rw [hE] at hfind
    have han : an ∈ dedupFirst (o'.attrs.map Attr.name ++ t'.attrs.map Attr.name ++
        (battrsOf (some be)).map Attr.name) := by
      rw [mem_dedupFirst]
      refine List.mem_append.mpr (Or.inl (List.mem_append.mpr (Or.inl ?_)))
      have hmem := List.mem_of_find?_eq_some hao
      have hname := List.find?_some hao
      simp only [decide_eq_true_eq] at hname
      exact List.mem_map.mpr ⟨ao, hmem, hname⟩
    constructor
    · refine ⟨e, hfind, ?_⟩
      rw [mergeEntityBoth_attrs_find n (some be) o' t' an e hE han, attrStep, hao, hatv]
      exact mergeAttrCase_fst_both n an _ ao atv
    · intro x y hc
      rcases twm_conflicts_mem base ours theirs _ hc with ⟨n', hc'⟩ | ⟨k', hc'⟩
      · rw [entStep] at hc'
        rcases mergeEntityCase_snd_owner n' _ _ _ _ hc' with ⟨os, ts, heq⟩ | ⟨an', x', y', heq⟩
        · simp at heq
        · have hnn : n = n' ∧ an = an' := by
            rw [Conflict.attr.injEq] at heq
            exact ⟨heq.1, heq.2.1⟩
          rcases hnn with ⟨rfl1, rfl2⟩
          subst rfl1
          subst rfl2
          rcases mergeEntityCase_snd_mem n _ _ _ _ hc' with ⟨o0, t0, ho0, ht0, hcB⟩
          rw [ho] at ho0
          rw [ht] at ht0
          rw [← Option.some.inj ho0, ← Option.some.inj ht0] at hcB
          rw [hb] at hcB
          rcases mergeEntityBoth_snd_mem n (some be) o' t' _ hcB with heq' | ⟨an2, hattr⟩
          · simp at heq'
          · rw [show battrsOf (some be) = be.attrs from rfl] at hattr
            rw [attrStep] at hattr
            rcases mergeAttrCase_snd_mem n an2 _ _ _ _ hattr
              with ⟨a1, a2, ha1, ha2, heq2, hcond⟩
            have han2 : an = an2 ∧ x = a1 ∧ y = a2 := by
              rw [Conflict.attr.injEq] at heq2
              exact ⟨heq2.2.1, heq2.2.2.1, heq2.2.2.2⟩
            rcases han2 with ⟨rfl3, -, -⟩
            subst rfl3
            rw [hao] at ha1
            rw [hatv] at ha2
            rw [← Option.some.inj ha1, ← Option.some.inj ha2] at hcond
            rw [hb0] at hcond
            simp only [attrConflictCond, Bool.and_eq_true, Bool.not_eq_true'] at hcond
            rcases hone with h1 | h1
            · rw [h1] at hcond
              exact Bool.noConfusion hcond.2.1
            · rw [h1] at hcond
              exact Bool.noConfusion hcond.2.2
      · rw [relStep] at hc'
        rcases mergeRelationCase_snd_mem k' _ _ _ _ hc' with ⟨r1, r2, -, -, heq, -⟩
        simp at heq
  · intro k o2 t2 b2 ho ht hb hne hone
    have hkmem : k ∈ keys (indexBy keyRel base.relations) ++
        keys (indexBy keyRel ours.relations) ++ keys (indexBy keyRel theirs.relations) :=
      List.mem_append.mpr (Or.inl (List.mem_append.mpr (Or.inr (mem_keys_of_mapGet _ _ _ ho))))
    have hfind := twm_relations_find base ours theirs k hkmem
    rw [relStep, ho, ht, hb] at hfind
    constructor
    · rw [hfind]
      exact mergeRelationCase_fst_both k _ o2 t2
    · intro x y hc
      rcases twm_conflicts_mem base ours theirs _ hc with ⟨n', hc'⟩ | ⟨k', hc'⟩
      · rw [entStep] at hc'
        rcases mergeEntityCase_snd_owner n' _ _ _ _ hc' with ⟨os, ts, heq⟩ | ⟨an', x', y', heq⟩
        · simp at heq
        · simp at heq
      · rw [relStep] at hc'
        rcases mergeRelationCase_snd_mem k' _ _ _ _ hc' with ⟨r1, r2, hr1, hr2, heq, hcond⟩
        have hkk : k = k' ∧ x = r1 ∧ y = r2 := by
          rw [Conflict.relation.injEq] at heq
          exact ⟨heq.1, heq.2.1, heq.2.2⟩
        rcases hkk with ⟨rfl4, -, -⟩
        subst rfl4
        rw [ho] at hr1
        rw [ht] at hr2
        rw [← Option.some.inj hr1, ← Option.some.inj hr2] at hcond
        rw [hb] at hcond
        simp only [relConflictCond, Bool.and_eq_true, Bool.not_eq_true'] at hcond
        rcases hone with h1 | h1
        · rw [h1] at hcond
          exact Bool.noConfusion hcond.2.1
        · rw [h1] at hcond
          exact Bool.noConfusion hcond.2.2

/-- Witness for C1 (amended) at a concrete input: base = ours hold
`E.a : int` and relation `A→B association`; theirs holds `E.a : string`
and `A→B aggregation`. Ours equals base on both keys, theirs differs: the
merge keeps ours's values and records no conflict. -/
theorem merge_one_side_equals_base_keeps_ours_witness :
    (sameAttrM ⟨"a", "int", none, none, none⟩ ⟨"a", "string", none, none, none⟩ = false ∧
     sameAttrM ⟨"a", "int", none, none, none⟩ ⟨"a", "int", none, none, none⟩ = true ∧
     relEq ⟨"A", "B", RelKind.association, none, none⟩
       ⟨"A", "B", RelKind.aggregation, none, none⟩ = false) ∧
    ((∃ e, (threeWayMerge
        ⟨[⟨"E", none, [⟨"a", "int", none, none, none⟩]⟩],
          [⟨"A", "B", RelKind.association, none, none⟩], none⟩
        ⟨[⟨"E", none, [⟨"a", "int", none, none, none⟩]⟩],
          [⟨"A", "B", RelKind.association, none, none⟩], none⟩
        ⟨[⟨"E", none, [⟨"a", "string", none, none, none⟩]⟩],
          [⟨"A", "B", RelKind.aggregation, none, none⟩], none⟩).1.entities.find?
          (fun x => x.name = "E") = some e ∧
        e.attrs.find? (fun a => a.name = "a") = some ⟨"a", "int", none, none, none⟩) ∧
     (∀ x y, Conflict.attr "E" "a" x y ∉ (threeWayMerge
        ⟨[⟨"E", none, [⟨"a", "int", none, none, none⟩]⟩],
          [⟨"A", "B", RelKind.association, none, none⟩], none⟩
        ⟨[⟨"E", none, [⟨"a", "int", none, none, none⟩]⟩],
          [⟨"A", "B", RelKind.association, none, none⟩], none⟩
        ⟨[⟨"E", none, [⟨"a", "string", none, none, none⟩]⟩],
          [⟨"A", "B", RelKind.aggregation, none, none⟩], none⟩).2)) ∧
    ((threeWayMerge
        ⟨[⟨"E", none, [⟨"a", "int", none, none, none⟩]⟩],
          [⟨"A", "B", RelKind.association, none, none⟩], none⟩
        ⟨[⟨"E", none, [⟨"a", "int", none, none, none⟩]⟩],
          [⟨"A", "B", RelKind.association, none, none⟩], none⟩
        ⟨[⟨"E", none, [⟨"a", "string", none, none, none⟩]⟩],
          [⟨"A", "B", RelKind.aggregation, none, none⟩], none⟩).1.relations.find?
        (fun r => keyRel r = "A::B") = some ⟨"A", "B", RelKind.association, none, none⟩ ∧
     (∀ x y, Conflict.relation "A::B" x y ∉ (threeWayMerge
        ⟨[⟨"E", none, [⟨"a", "int", none, none, none⟩]⟩],
          [⟨"A", "B", RelKind.association, none, none⟩], none⟩
        ⟨[⟨"E", none, [⟨"a", "int", none, none, none⟩]⟩],
          [⟨"A", "B", RelKind.association, none, none⟩], none⟩
        ⟨[⟨"E", none, [⟨"a", "string", none, none, none⟩]⟩],
          [⟨"A", "B", RelKind.aggregation, none, none⟩], none⟩).2)) :=
  ⟨⟨by decide, by decide, by decide⟩,
   (merge_one_side_equals_base_keeps_ours
      ⟨[⟨"E", none, [⟨"a", "int", none, none, none⟩]⟩],
        [⟨"A", "B", RelKind.association, none, none⟩], none⟩
      ⟨[⟨"E", none, [⟨"a", "int", none, none, none⟩]⟩],
        [⟨"A", "B", RelKind.association, none, none⟩], none⟩
      ⟨[⟨"E", none, [⟨"a", "string", none, none, none⟩]⟩],
        [⟨"A", "B", RelKind.aggregation, none, none⟩], none⟩).1 "E" "a"
      ⟨"E", none, [⟨"a", "int", none, none, none⟩]⟩
      ⟨"E", none, [⟨"a", "string", none, none, none⟩]⟩
      ⟨"E", none, [⟨"a", "int", none, none, none⟩]⟩
      ⟨"a", "int", none, none, none⟩ ⟨"a", "string", none, none, none⟩
      ⟨"a", "int", none, none, none⟩
      (by decide) (by decide) (by decide) (by decide) (by decide) (by decide)
      (by decide) (Or.inl (by decide)),
   (merge_one_side_equals_base_keeps_ours
      ⟨[⟨"E", none, [⟨"a", "int", none, none, none⟩]⟩],
        [⟨"A", "B", RelKind.association, none, none⟩], none⟩
      ⟨[⟨"E", none, [⟨"a", "int", none, none, none⟩]⟩],
        [⟨"A", "B", RelKind.association, none, none⟩], none⟩
      ⟨[⟨"E", none, [⟨"a", "string", none, none, none⟩]⟩],
        [⟨"A", "B", RelKind.aggregation, none, none⟩], none⟩).2 "A::B"
      ⟨"A", "B", RelKind.association, none, none⟩
      ⟨"A", "B", RelKind.aggregation, none, none⟩
      ⟨"A", "B", RelKind.association, none, none⟩
      (by decide) (by decide) (by decide) (by decide) (Or.inl (by decide))⟩

/-- C5 (amended): `diff` applied to the same version id twice never returns
a report (it throws BadRequest — see the counterexample); but for two
DISTINCT resolvable versions whose contents are equal, the returned report
is empty in all categories (entity and relation added/removed/changed, and
all summary counts are zero). -/
theorem diff_equal_contents_empty (s : Store) (pid i j : String) (A B : ModelVersion)
    (hij : i ≠ j)
    (hA : getVersion s pid i = Except.ok A)
    (hB : getVersion s pid j = Except.ok B)
    (hc : A.content = B.content) :
    diffService s pid i j
      = Except.ok ⟨⟨0, 0, 0, 0, 0, 0⟩, ⟨[], [], []⟩, ⟨[], [], []⟩⟩ := by
  rw [diffService.eq_def, if_neg hij, hA, hB]
  simp only
  rw [hc, diffEntities_self, diffRelations_self]
  rfl

/-- Witness for C5 (amended): two distinct versions with equal content give
the empty report. -/
theorem diff_equal_contents_empty_witness :
    (("A" : String) ≠ "B" ∧
     getVersion ⟨[], [⟨"A", "p", "b", none, "u", "m", ⟨[], [], none⟩, 1⟩,
        ⟨"B", "p", "b", none, "u", "m", ⟨[], [], none⟩, 2⟩], [], []⟩ "p" "A"
       = Except.ok ⟨"A", "p", "b", none, "u", "m", ⟨[], [], none⟩, 1⟩ ∧
     getVersion ⟨[], [⟨"A", "p", "b", none, "u", "m", ⟨[], [], none⟩, 1⟩,
        ⟨"B", "p", "b", none, "u", "m", ⟨[], [], none⟩, 2⟩], [], []⟩ "p" "B"
       = Except.ok ⟨"B", "p", "b", none, "u", "m", ⟨[], [], none⟩, 2⟩) ∧
    diffService ⟨[], [⟨"A", "p", "b", none, "u", "m", ⟨[], [], none⟩, 1⟩,
        ⟨"B", "p", "b", none, "u", "m", ⟨[], [], none⟩, 2⟩], [], []⟩ "p" "A" "B"
      = Except.ok ⟨⟨0, 0, 0, 0, 0, 0⟩, ⟨[], [], []⟩, ⟨[], [], []⟩⟩ :=
  ⟨⟨by decide, rfl, rfl⟩,
   diff_equal_contents_empty
     ⟨[], [⟨"A", "p", "b", none, "u", "m", ⟨[], [], none⟩, 1⟩,
        ⟨"B", "p", "b", none, "u", "m", ⟨[], [], none⟩, 2⟩], [], []⟩ "p" "A" "B"
     ⟨"A", "p", "b", none, "u", "m", ⟨[], [], none⟩, 1⟩
     ⟨"B", "p", "b", none, "u", "m", ⟨[], [], none⟩, 2⟩
     (by decide) rfl rfl rfl⟩

/-- C2 (amended): merging with base = X, ours = X and theirs = Y always
yields an empty conflict list. (The merged content, however, need not equal
Y's content — see the counterexample — because a key present in X keeps
X's stored value and a deletion in Y is undone.) -/
theorem fast_forward_no_conflicts (X Y : DSL) : (threeWayMerge X X Y).2 = [] := by
  show (collectGo (entStep (indexBy Entity.name X.entities) (indexBy Entity.name X.entities)
        (indexBy Entity.name Y.entities)) _).2 ++
      (collectGo (relStep (indexBy keyRel X.relations) (indexBy keyRel X.relations)
        (indexBy keyRel Y.relations)) _).2 = []
  rw [collectGo_snd_nil _ _ (fun n _ => entStep_self_snd X.entities Y.entities n),
    collectGo_snd_nil _ _ (fun k _ => relStep_self_snd X.relations Y.relations k)]
  rfl

/-- C4 (amended): for attribute and relation keys present in both ours and
theirs whose normalized values are unequal and neither equals base's value
(or base has no entry), exactly one Conflict carrying both values is
recorded and the merged document holds ours's value. For the entity
stereotype, the conflict (carrying both values) is recorded exactly when
the empty-string-normalized stereotypes of ours, theirs and base are
pairwise distinct, and the merged stereotype is ours's when defined, else
theirs's, else base's — so with an undefined ours stereotype the merged
document holds theirs's value despite the conflict (see the
counterexample). -/
theorem conflict_records_and_keeps_ours (base ours theirs : DSL) :
    (∀ (n an : String) (o' t' : Entity) (ao atv : Attr),
      mapGet (indexBy Entity.name ours.entities) n = some o' →
      mapGet (indexBy Entity.name theirs.entities) n = some t' →
      o'.attrs.find? (fun a => a.name = an) = some ao →
      t'.attrs.find? (fun a => a.name = an) = some atv →
      sameAttrM ao atv = false →
      ((battrsOf (mapGet (indexBy Entity.name base.entities) n)).find?
          (fun a => a.name = an) = none ∨
        (∃ b0, (battrsOf (mapGet (indexBy Entity.name base.entities) n)).find?
            (fun a => a.name = an) = some b0 ∧
          sameAttrM ao b0 = false ∧ sameAttrM atv b0 = false)) →
      (∃ e, (threeWayMerge base ours theirs).1.entities.find? (fun x => x.name = n) = some e ∧
        e.attrs.find? (fun a => a.name = an) = some ao) ∧
      ((threeWayMerge base ours theirs).2).count (Conflict.attr n an ao atv) = 1) ∧
    (∀ (k : String) (o2 t2 : Relation),
      mapGet (indexBy keyRel ours.relations) k = some o2 →
      mapGet (indexBy keyRel theirs.relations) k = some t2 →
      relEq o2 t2 = false →
      (mapGet (indexBy keyRel base.relations) k = none ∨
        (∃ b2, mapGet (indexBy keyRel base.relations) k = some b2 ∧
          relEq o2 b2 = false ∧ relEq t2 b2 = false)) →
      (threeWayMerge base ours theirs).1.relations.find? (fun r => keyRel r = k) = some o2 ∧
      ((threeWayMerge base ours theirs).2).count (Conflict.relation k o2 t2) = 1) ∧
    (∀ (n : String) (o' t' : Entity),
      mapGet (indexBy Entity.name ours.entities) n = some o' →
      mapGet (indexBy Entity.name theirs.entities) n = some t' →
      (∃ e, (threeWayMerge base ours theirs).1.entities.find? (fun x => x.name = n) = some e ∧
        e.stereotype = o'.stereotype.or (t'.stereotype.or
          ((mapGet (indexBy Entity.name base.entities) n).bind Entity.stereotype))) ∧
      ((threeWayMerge base ours theirs).2).count
          (Conflict.entityStereotype n o'.stereotype t'.stereotype)
        = (if pick o'.stereotype ≠ pick t'.stereotype ∧
              pick o'.stereotype ≠
                pick ((mapGet (indexBy Entity.name base.entities) n).bind Entity.stereotype) ∧
              pick t'.stereotype ≠
                pick ((mapGet (indexBy Entity.name base.entities) n).bind Entity.stereotype)
            then 1 else 0)) := by
  refine ⟨?_, ?_, ?_⟩
  · intro n an o' t' ao atv ho ht hao hatv hne hbase
    have hnmem : n ∈ keys (indexBy Entity.name base.entities) ++
        keys (indexBy Entity.name ours.entities) ++
        keys (indexBy Entity.name theirs.entities) :=
      List.mem_append.mpr (Or.inl (List.mem_append.mpr (Or.inr (mem_keys_of_mapGet _ _ _ ho))))
    have hfind := twm_entities_find base ours theirs n hnmem
    rw [entStep, ho, ht, mergeEntityCase] at hfind
    have hE : ∃ e, (mergeEntityBoth n (mapGet (indexBy Entity.name base.entities) n) o' t').1
        = some e := ⟨_, rfl⟩
    rcases hE with ⟨e, hE⟩
    rw [hE] at hfind
    have han : an ∈ dedupFirst (o'.attrs.map Attr.name ++ t'.attrs.map Attr.name ++
        (battrsOf (mapGet (indexBy Entity.name base.entities) n)).map Attr.name) := by
      rw [mem_dedupFirst]
      refine List.mem_append.mpr (Or.inl (List.mem_append.mpr (Or.inl ?_)))
      have hmem := List.mem_of_find?_eq_some hao
      have hname := List.find?_some hao
      simp only [decide_eq_true_eq] at hname
      exact List.mem_map.mpr ⟨ao, hmem, hname⟩
    constructor
    · refine ⟨e, hfind, ?_⟩
      rw [mergeEntityBoth_attrs_find n _ o' t' an e hE han, attrStep, hao, hatv]
      exact mergeAttrCase_fst_both n an _ ao atv
    · rw [twm_count_entity_owned base ours theirs n _ (Or.inr ⟨an, ao, atv, rfl⟩) hnmem]
      rw [entStep, ho, ht, mergeEntityCase, mergeEntityBoth.eq_def]
      simp only
      rw [List.count_append]
      have hst0 : (if pick o'.stereotype ≠ pick t'.stereotype ∧
            pick o'.stereotype ≠
              pick ((mapGet (indexBy Entity.name base.entities) n).bind Entity.stereotype) ∧
            pick t'.stereotype ≠
              pick ((mapGet (indexBy Entity.name base.entities) n).bind Entity.stereotype)
          then [Conflict.entityStereotype n o'.stereotype t'.stereotype]
          else ([] : List Conflict)).count (Conflict.attr n an ao atv) = 0 := by
        rw [List.count_eq_zero]
        intro hmem
        split at hmem
        · rcases List.mem_singleton.mp hmem with heq
          simp at heq
        · simp at hmem
      rw [hst0, Nat.zero_add]
      rw [collectGo_count _ _ _ (nodup_dedupFirst _) an han ?owned]
      case owned =>
        intro an' _ hne' hmem
        rw [attrStep] at hmem
        rcases mergeAttrCase_snd_mem n an' _ _ _ _ hmem with ⟨a1, a2, -, -, heq, -⟩
        rw [Conflict.attr.injEq] at heq
        exact hne' heq.2.1.symm
      rw [attrStep, hao, hatv, mergeAttrCase]
      rcases hbase with hb' | ⟨b0, hb', hob, htb⟩
      · rw [hb']
        rw [if_pos (by simp [attrConflictCond, hne])]
        simp
      · rw [hb']
        rw [if_pos (by simp [attrConflictCond, hne, hob, htb])]
        simp
  · intro k o2 t2 ho ht hne hbase
    have hkmem : k ∈ keys (indexBy keyRel base.relations) ++
        keys (indexBy keyRel ours.relations) ++ keys (indexBy keyRel theirs.relations) :=
      List.mem_append.mpr (Or.inl (List.mem_append.mpr (Or.inr (mem_keys_of_mapGet _ _ _ ho))))
    have hfind := twm_relations_find base ours theirs k hkmem
    rw [relStep, ho, ht] at hfind
    constructor
    · rw [hfind]
      exact mergeRelationCase_fst_both k _ o2 t2
    · rw [twm_count_relation_owned base ours theirs k _ ⟨o2, t2, rfl⟩ hkmem]
      rw [relStep, ho, ht, mergeRelationCase]
      rcases hbase with hb' | ⟨b2, hb', hob, htb⟩
      · rw [hb']
        rw [if_pos (by simp [relConflictCond, hne])]
        simp
      · rw [hb']
        rw [if_pos (by simp [relConflictCond, hne, hob, htb])]
        simp
  · intro n o' t' ho ht
    have hnmem : n ∈ keys (indexBy Entity.name base.entities) ++
        keys (indexBy Entity.name ours.entities) ++
        keys (indexBy Entity.name theirs.entities) :=
      List.mem_append.mpr (Or.inl (List.mem_append.mpr (Or.inr (mem_keys_of_mapGet _ _ _ ho))))
    have hfind := twm_entities_find base ours theirs n hnmem
    rw [entStep, ho, ht, mergeEntityCase] at hfind
    constructor
    · have hE : (mergeEntityBoth n (mapGet (indexBy Entity.name base.entities) n) o' t').1
          = some ⟨n, o'.stereotype.or (t'.stereotype.or
            ((mapGet (indexBy Entity.name base.entities) n).bind Entity.stereotype)),
            (collectGo (attrStep n
              (battrsOf (mapGet (indexBy Entity.name base.entities) n)) o'.attrs t'.attrs)
              (dedupFirst (o'.attrs.map Attr.name ++ t'.attrs.map Attr.name ++
                (battrsOf (mapGet (indexBy Entity.name base.entities) n)).map Attr.name))).1⟩ := rfl
      rw [hE] at hfind
      exact ⟨_, hfind, rfl⟩
    · rw [twm_count_entity_owned base ours theirs n _
        (Or.inl ⟨o'.stereotype, t'.stereotype, rfl⟩) hnmem]
      rw [entStep, ho, ht, mergeEntityCase, mergeEntityBoth.eq_def]
      simp only
      rw [List.count_append]
      have hat0 : ((collectGo (attrStep n
          (battrsOf (mapGet (indexBy Entity.name base.entities) n)) o'.attrs t'.attrs)
          (dedupFirst (o'.attrs.map Attr.name ++ t'.attrs.map Attr.name ++
            (battrsOf (mapGet (indexBy Entity.name base.entities) n)).map Attr.name))).2).count
          (Conflict.entityStereotype n o'.stereotype t'.stereotype) = 0 := by
        rw [List.count_eq_zero]
        intro hmem
        rcases (collectGo_snd_mem _ _ _).mp hmem with ⟨an', -, hmem'⟩
        rw [attrStep] at hmem'
        rcases mergeAttrCase_snd_mem n an' _ _ _ _ hmem' with ⟨a1, a2, -, -, heq, -⟩
        simp at heq
      rw [hat0, Nat.add_zero]
      by_cases hP : pick o'.stereotype ≠ pick t'.stereotype ∧
          pick o'.stereotype ≠
            pick ((mapGet (indexBy Entity.name base.entities) n).bind Entity.stereotype) ∧
          pick t'.stereotype ≠
            pick ((mapGet (indexBy Entity.name base.entities) n).bind Entity.stereotype)
      · rw [if_pos hP, if_pos hP]
        simp
      · rw [if_neg hP, if_neg hP]
        simp

/-- Witness for C4 (amended) at a concrete input where an attribute, a
relation and a stereotype conflict all occur: base holds `E⟨s1⟩.a : t1` and
`A→B association`, ours `E⟨s2⟩.a : t2` and `A→B composition`, theirs
`E⟨s3⟩.a : t3` and `A→B aggregation`. -/
theorem conflict_records_and_keeps_ours_witness :
    (sameAttrM ⟨"a", "t2", none, none, none⟩ ⟨"a", "t3", none, none, none⟩ = false ∧
     relEq ⟨"A", "B", RelKind.composition, none, none⟩
       ⟨"A", "B", RelKind.aggregation, none, none⟩ = false) ∧
    ((∃ e, (threeWayMerge
        ⟨[⟨"E", some "s1", [⟨"a", "t1", none, none, none⟩]⟩],
          [⟨"A", "B", RelKind.association, none, none⟩], none⟩
        ⟨[⟨"E", some "s2", [⟨"a", "t2", none, none, none⟩]⟩],
          [⟨"A", "B", RelKind.composition, none, none⟩], none⟩
        ⟨[⟨"E", some "s3", [⟨"a", "t3", none, none, none⟩]⟩],
          [⟨"A", "B", RelKind.aggregation, none, none⟩], none⟩).1.entities.find?
          (fun x => x.name = "E") = some e ∧
        e.attrs.find? (fun a => a.name = "a") = some ⟨"a", "t2", none, none, none⟩) ∧
      ((threeWayMerge
        ⟨[⟨"E", some "s1", [⟨"a", "t1", none, none, none⟩]⟩],
          [⟨"A", "B", RelKind.association, none, none⟩], none⟩
        ⟨[⟨"E", some "s2", [⟨"a", "t2", none, none, none⟩]⟩],
          [⟨"A", "B", RelKind.composition, none, none⟩], none⟩
        ⟨[⟨"E", some "s3", [⟨"a", "t3", none, none, none⟩]⟩],
          [⟨"A", "B", RelKind.aggregation, none, none⟩], none⟩).2).count
        (Conflict.attr "E" "a" ⟨"a", "t2", none, none, none⟩
          ⟨"a", "t3", none, none, none⟩) = 1) ∧
    ((threeWayMerge
        ⟨[⟨"E", some "s1", [⟨"a", "t1", none, none, none⟩]⟩],
          [⟨"A", "B", RelKind.association, none, none⟩], none⟩
        ⟨[⟨"E", some "s2", [⟨"a", "t2", none, none, none⟩]⟩],
          [⟨"A", "B", RelKind.composition, none, none⟩], none⟩
        ⟨[⟨"E", some "s3", [⟨"a", "t3", none, none, none⟩]⟩],
          [⟨"A", "B", RelKind.aggregation, none, none⟩], none⟩).1.relations.find?
        (fun r => keyRel r = "A::B") = some ⟨"A", "B", RelKind.composition, none, none⟩ ∧
      ((threeWayMerge
        ⟨[⟨"E", some "s1", [⟨"a", "t1", none, none, none⟩]⟩],
          [⟨"A", "B", RelKind.association, none, none⟩], none⟩
        ⟨[⟨"E", some "s2", [⟨"a", "t2", none, none, none⟩]⟩],
          [⟨"A", "B", RelKind.composition, none, none⟩], none⟩
        ⟨[⟨"E", some "s3", [⟨"a", "t3", none, none, none⟩]⟩],
          [⟨"A", "B", RelKind.aggregation, none, none⟩], none⟩).2).count
        (Conflict.relation "A::B" ⟨"A", "B", RelKind.composition, none, none⟩
          ⟨"A", "B", RelKind.aggregation, none, none⟩) = 1) ∧
    ((∃ e, (threeWayMerge
        ⟨[⟨"E", some "s1", [⟨"a", "t1", none, none, none⟩]⟩],
          [⟨"A", "B", RelKind.association, none, none⟩], none⟩
        ⟨[⟨"E", some "s2", [⟨"a", "t2", none, none, none⟩]⟩],
          [⟨"A", "B", RelKind.composition, none, none⟩], none⟩
        ⟨[⟨"E", some "s3", [⟨"a", "t3", none, none, none⟩]⟩],
          [⟨"A", "B", RelKind.aggregation, none, none⟩], none⟩).1.entities.find?
          (fun x => x.name = "E") = some e ∧
        e.stereotype = (some "s2").or ((some "s3").or
          ((mapGet (indexBy Entity.name
              [⟨"E", some "s1", [⟨"a", "t1", none, none, none⟩]⟩]) "E").bind
            Entity.stereotype))) ∧
      ((threeWayMerge
        ⟨[⟨"E", some "s1", [⟨"a", "t1", none, none, none⟩]⟩],
          [⟨"A", "B", RelKind.association, none, none⟩], none⟩
        ⟨[⟨"E", some "s2", [⟨"a", "t2", none, none, none⟩]⟩],
          [⟨"A", "B", RelKind.composition, none, none⟩], none⟩
        ⟨[⟨"E", some "s3", [⟨"a", "t3", none, none, none⟩]⟩],
          [⟨"A", "B", RelKind.aggregation, none, none⟩], none⟩).2).count
        (Conflict.entityStereotype "E" (some "s2") (some "s3"))
        = (if pick (some "s2") ≠ pick (some "s3") ∧
            pick (some "s2") ≠ pick ((mapGet (indexBy Entity.name
              [⟨"E", some "s1", [⟨"a", "t1", none, none, none⟩]⟩]) "E").bind
              Entity.stereotype) ∧
            pick (some "s3") ≠ pick ((mapGet (indexBy Entity.name
              [⟨"E", some "s1", [⟨"a", "t1", none, none, none⟩]⟩]) "E").bind
              Entity.stereotype)
          then 1 else 0)) :=
  ⟨⟨by decide, by decide⟩,
   (conflict_records_and_keeps_ours
      ⟨[⟨"E", some "s1", [⟨"a", "t1", none, none, none⟩]⟩],
        [⟨"A", "B", RelKind.association, none, none⟩], none⟩
      ⟨[⟨"E", some "s2", [⟨"a", "t2", none, none, none⟩]⟩],
        [⟨"A", "B", RelKind.composition, none, none⟩], none⟩
      ⟨[⟨"E", some "s3", [⟨"a", "t3", none, none, none⟩]⟩],
        [⟨"A", "B", RelKind.aggregation, none, none⟩], none⟩).1 "E" "a"
      ⟨"E", some "s2", [⟨"a", "t2", none, none, none⟩]⟩
      ⟨"E", some "s3", [⟨"a", "t3", none, none, none⟩]⟩
      ⟨"a", "t2", none, none, none⟩ ⟨"a", "t3", none, none, none⟩
      (by decide) (by decide) (by decide) (by decide) (by decide)
      (Or.inr ⟨⟨"a", "t1", none, none, none⟩, by decide, by decide, by decide⟩),
   (conflict_records_and_keeps_ours
      ⟨[⟨"E", some "s1", [⟨"a", "t1", none, none, none⟩]⟩],
        [⟨"A", "B", RelKind.association, none, none⟩], none⟩
      ⟨[⟨"E", some "s2", [⟨"a", "t2", none, none, none⟩]⟩],
        [⟨"A", "B", RelKind.composition, none, none⟩], none⟩
      ⟨[⟨"E", some "s3", [⟨"a", "t3", none, none, none⟩]⟩],
        [⟨"A", "B", RelKind.aggregation, none, none⟩], none⟩).2.1 "A::B"
      ⟨"A", "B", RelKind.composition, none, none⟩
      ⟨"A", "B", RelKind.aggregation, none, none⟩
      (by decide) (by decide) (by decide)
      (Or.inr ⟨⟨"A", "B", RelKind.association, none, none⟩, by decide, by decide, by decide⟩),
   (conflict_records_and_keeps_ours
      ⟨[⟨"E", some "s1", [⟨"a", "t1", none, none, none⟩]⟩],
        [⟨"A", "B", RelKind.association, none, none⟩], none⟩
      ⟨[⟨"E", some "s2", [⟨"a", "t2", none, none, none⟩]⟩],
        [⟨"A", "B", RelKind.composition, none, none⟩], none⟩
      ⟨[⟨"E", some "s3", [⟨"a", "t3", none, none, none⟩]⟩],
        [⟨"A", "B", RelKind.aggregation, none, none⟩], none⟩).2.2 "E"
      ⟨"E", some "s2", [⟨"a", "t2", none, none, none⟩]⟩
      ⟨"E", some "s3", [⟨"a", "t3", none, none, none⟩]⟩
      (by decide) (by decide)⟩

/-- C5 counterexample: calling `diff` with the same resolvable version id on
both sides does not return a report at all — the service rejects it with
BadRequest (source line 117: `Seleccione dos versiones distintas`). -/
theorem diff_same_id_counterexample :
    diffService ⟨[], [⟨"A", "p", "b", none, "u", "m", ⟨[], [], none⟩, 1⟩], [], []⟩ "p" "A" "A"
      = Except.error Err.badRequest := rfl

end Verano
